import Mathlib

/-!
Verification of go-services-patterns: the inline circuit breaker (`part2/circuit2`)

Shallow embedding of `circuit2.Client` (`NewClient`, `pre`, `post`, `Do`).

Modelling conventions:
* `time.Time` and `time.Duration` are integers (nanoseconds); `t.After(u)` is `u < t`
  and `t.Add(d)` is `t + d`.
* every `time.Now()` call of the source is a separate argument, so the results hold for
  every clock, monotone or not.
* `uint64` counters are naturals reduced modulo `2 ^ 64` where the source increments them.
* the wrapped `http.Client` is external: the reply it gives when invoked is an argument of
  `Do`, and the result records how many times it was invoked.
* the `backoff.ExponentialBackOff` generator is an external library, used by the source only
  through `NewExponentialBackOff`, `Reset`, `NextBackOff` and the constant `Stop`; it is a
  parameter (`BackOff β`).
* a Go panic is the result `none`.
-/

namespace circuit2

/-- The three values of `breakerState` (`open` is written `open_`, a reserved word otherwise). -/
inductive breakerState
  | open_
  | halfOpen
  | closed
  deriving DecidableEq, Repr

/-- Error values as far as the breaker distinguishes them. `Canceled` stands for every error
`err` with `errors.Is(err, context.Canceled)`. -/
inductive GoError
  | ErrBreakerOpen
  | Canceled
  | DeadlineExceeded
  | other (tag : Nat)
  deriving DecidableEq, Repr

/-- Model of `errors.Is(err, context.Canceled)`. -/
def isCanceled : GoError → Bool
  | .Canceled => true
  | _ => false

/-- Go `errors.Is(err, context.Canceled)` on a possibly nil error. -/
def errorsIsCanceled : Option GoError → Bool
  | none => false
  | some e => isCanceled e

/-- The part of `http.Response` the breaker reads. -/
structure Response where
  StatusCode : Int
  deriving DecidableEq, Repr

/-- What `http.Client.Do` returns: a response with a nil error, or a non-nil error
(possibly with a response, which the breaker ignores). -/
inductive Reply
  | ok (resp : Response)
  | fail (resp : Option Response) (err : GoError)
  deriving DecidableEq, Repr

/-- Value of `http.StatusInternalServerError`. -/
def StatusInternalServerError : Int := 500

/-- Value of `backoff.Stop`. -/
def Stop : Int := -1

/-- Interface of the external back-off generator: `New` is `backoff.NewExponentialBackOff()`,
`Reset` and `NextBackOff` are its two methods used by the breaker, as state-passing
functions. -/
structure BackOff (β : Type) where
  New : β
  Reset : β → β
  NextBackOff : β → Int × β

/-- The fields of `Client` (the wrapped `http.Client` is external). -/
structure Client (β : Type) where
  state : breakerState
  nfail : Nat
  threshold : Nat
  timeout : Int
  cooldown : Int
  openBackOff : β

/-- Go `NewClient` / `NewDefaultClient`: they differ only in the wrapped `http.Client`.
Unset fields take Go zero values. -/
def NewClient {β : Type} (B : BackOff β) (t : Nat) : Client β :=
  { state := .closed, nfail := 0, threshold := t, timeout := 0, cooldown := 0,
    openBackOff := B.New }

/-- Go `Client.pre`. `now₁` is the clock read by the `After` test, `now₂` the clock read when
the new deadline is computed. Returns the error (or nil) and the updated client. -/
def pre {β : Type} (c : Client β) (now₁ now₂ : Int) : Option GoError × Client β :=
  if c.state = .open_ then
    if ¬ (c.timeout < now₁) then
      (some .ErrBreakerOpen, c)
    else
      (none, { c with state := .halfOpen, timeout := now₂ + c.cooldown })
  else
    (none, c)

/-- Go `Client.post`. `now` is the clock read by the single `time.Now()` call executed on
the path taken. `none` is the panic. -/
def post {β : Type} (B : BackOff β) (c : Client β) (err : Option GoError) (statusCode : Int)
    (now : Int) : Option (Client β) :=
  if c.state = .open_ then
    none
  else if (err = none ∧ statusCode < StatusInternalServerError) ∨
      (err ≠ none ∧ errorsIsCanceled err = true) then
    let c₁ : Client β :=
      if c.state = .halfOpen ∧ c.timeout < now then { c with state := .closed } else c
    some { c₁ with nfail := 0 }
  else
    let c₁ : Client β := { c with nfail := (c.nfail + 1) % 2 ^ 64 }
    match c₁.state with
    | .closed =>
      if c₁.threshold ≤ c₁.nfail then
        let b := B.Reset c₁.openBackOff
        let r := B.NextBackOff b
        some { c₁ with state := .open_, openBackOff := r.2, cooldown := r.1,
                       timeout := now + r.1 }
      else
        some c₁
    | .halfOpen =>
      let r := B.NextBackOff c₁.openBackOff
      let cd := if r.1 ≠ Stop then r.1 else c₁.cooldown
      some { c₁ with state := .open_, openBackOff := r.2, cooldown := cd, timeout := now + cd }
    | .open_ => some c₁

/-- The clock readings of one `Do` call and the reply the transport gives if invoked. -/
structure Call where
  now₁ : Int
  now₂ : Int
  now₃ : Int
  reply : Reply
  deriving DecidableEq, Repr

/-- What one `Do` call produces: the returned pair, the client afterwards, and the number
of transport invocations made. -/
structure DoResult (β : Type) where
  resp : Option Response
  err : Option GoError
  client : Client β
  calls : Nat

/-- The `(resp, err)` pair of a reply. -/
def Reply.resp : Reply → Option Response
  | .ok r => some r
  | .fail r _ => r

/-- The error of a reply (nil for `ok`). -/
def Reply.err : Reply → Option GoError
  | .ok _ => none
  | .fail _ e => some e

/-- The `statusCode` local of `Do`: zero unless the error is nil. -/
def Reply.statusCode : Reply → Int
  | .ok r => r.StatusCode
  | .fail _ _ => 0

/-- Go `Client.Do`. `none` is a panic (raised by `post`). -/
def Do {β : Type} (B : BackOff β) (c : Client β) (k : Call) : Option (DoResult β) :=
  match pre c k.now₁ k.now₂ with
  | (some e, c₁) => some { resp := none, err := some e, client := c₁, calls := 0 }
  | (none, c₁) =>
    match post B c₁ k.reply.err k.reply.statusCode k.now₃ with
    | none => none
    | some c₂ => some { resp := k.reply.resp, err := k.reply.err, client := c₂, calls := 1 }

/-- A sequential execution of `Do` calls on one client. -/
def runDo {β : Type} (B : BackOff β) : Client β → List Call → Option (Client β)
  | c, [] => some c
  | c, k :: ks =>
    match Do B c k with
    | none => none
    | some r => runDo B r.client ks

/-- The outcome classes of the specification. -/
inductive Outcome
  | Success
  | RecoverableFailure
  | Cancelled
  deriving DecidableEq, Repr

/-- Classification of a `(err, statusCode)` pair as the specification words it: a nil error
with a status below 500 is a success, a nil error with a status of 500 or more and every
non-cancel error is a recoverable failure, an error matching `context.Canceled` is a
cancellation. -/
def classify (err : Option GoError) (statusCode : Int) : Outcome :=
  match err with
  | none => if statusCode < 500 then .Success else .RecoverableFailure
  | some e => if isCanceled e then .Cancelled else .RecoverableFailure

/-- Outcome class of a transport reply, as `Do` hands it to `post`. -/
def Reply.outcome (r : Reply) : Outcome := classify r.err r.statusCode

/-- Number of recoverable failures since the last outcome of another class: the length of
the longest suffix made of recoverable failures only. -/
def trailingFailures (os : List Reply) : Nat :=
  (os.reverse.takeWhile (fun r => decide (r.outcome = .RecoverableFailure))).length

/-- A back-off generator for concrete executions: it hands out the entries of a fixed table
in order and answers `Stop` once the table is used up; `Reset` restarts the table. -/
def tableBackOff (tbl : List Int) : BackOff Nat :=
  { New := 0, Reset := fun _ => 0, NextBackOff := fun p => (tbl.getD p Stop, p + 1) }

/-- A transport reply with a nil error and the given status. -/
def status (code : Int) : Reply := .ok { StatusCode := code }

/-- Generator of the concrete executions: first interval 500, then 750, then `Stop`. -/
def demoBackOff : BackOff Nat := tableBackOff [500, 750]

/-- Generator that answers `Stop` after its first interval, as the library generator does
once its maximum elapsed time has passed. -/
def shortBackOff : BackOff Nat := tableBackOff [500]

/-- An open breaker with deadline 500 and cool-down 500, as left by one failure at time 0
on `NewClient demoBackOff 1`. -/
def openClient : Client Nat :=
  { state := .open_, nfail := 1, threshold := 1, timeout := 500, cooldown := 500,
    openBackOff := 1 }

/-- The four edges of the state diagram: closed to open, open to half-open, half-open to
closed and half-open to open. -/
def allowedEdge (s s₁ : breakerState) : Prop :=
  (s = .closed ∧ s₁ = .open_) ∨ (s = .open_ ∧ s₁ = .halfOpen) ∨
  (s = .halfOpen ∧ s₁ = .closed) ∨ (s = .halfOpen ∧ s₁ = .open_)

/-- A `Do` call whose three clock readings are `now`, `now` and `done`. -/
def callAt (now done : Int) (reply : Reply) : Call :=
  { now₁ := now, now₂ := now, now₃ := done, reply := reply }

/-- A half-open breaker whose `uint64` failure counter holds its largest value, as reached by
`2 ^ 64 - 1` failed calls on a breaker of threshold 1. -/
def saturatedClient : Client Nat :=
  { state := .halfOpen, nfail := 2 ^ 64 - 1, threshold := 1, timeout := 1001, cooldown := 500,
    openBackOff := 1 }

end circuit2

/-!
The retry client and its back-off strategies (`part2/retry`).

* `int64` arithmetic (`time.Duration`) wraps: results are reduced with `wrap64`.
* the attempt index `n` of `BackOff` is a natural number (the `int` of the source is
  non-negative at every call of `Client.Do`).
* `rand.Int63n` takes the raw value drawn from the generator as an extra argument.
* `Client.strategy` is an interface value: the client holds the function `BackOff` of the
  execution; `time.Sleep` is recorded in the list of its arguments.
-/

namespace retry

/-- Reduction of an integer to the `int64` range by two's-complement wrap-around. -/
def wrap64 (x : Int) : Int := (x + 2 ^ 63) % 2 ^ 64 - 2 ^ 63

/-- Go `x << n` on `int64` for a shift count `n ≥ 0`. -/
def shl64 (x : Int) (n : Nat) : Int := wrap64 (x * 2 ^ n)

/-- Go `rand.Int63n(n)`: panics (`none`) when `n ≤ 0`, and returns a value of `[0, n)`
otherwise; `u` is the raw value drawn from the generator, so that every value of `[0, n)`
is returned for some `u`. -/
def Int63n (n : Int) (u : Nat) : Option Int :=
  if n ≤ 0 then none else some ((u : Int) % n)

/-- Go `Constant.BackOff`. -/
def Constant.BackOff (Quantum : Int) (_n : Nat) : Int := Quantum

/-- Go `Linear.BackOff`: `time.Duration(n) * l.Quantum`. -/
def Linear.BackOff (Quantum : Int) (n : Nat) : Int := wrap64 ((n : Int) * Quantum)

/-- Go `Exponential.BackOff`: `time.Duration(1<<n) * e.Quantum`. -/
def Exponential.BackOff (Quantum : Int) (n : Nat) : Int := wrap64 (shl64 1 n * Quantum)

/-- Go `jitter`. `u` is the raw value drawn by `rand.Int63n`; `none` is its panic. -/
def jitter (d : Int) (u : Nat) : Option Int :=
  let maxJitter := Int.tdiv d 3
  match Int63n (wrap64 (wrap64 (2 * maxJitter) + 1)) u with
  | none => none
  | some r =>
    let jitter := wrap64 (r - maxJitter)
    some (wrap64 (d + jitter))

/-- Go `JitteredConstant.BackOff`. -/
def JitteredConstant.BackOff (Quantum : Int) (n : Nat) (u : Nat) : Option Int :=
  jitter (Constant.BackOff Quantum n) u

/-- Go `JitteredLinear.BackOff`. -/
def JitteredLinear.BackOff (Quantum : Int) (n : Nat) (u : Nat) : Option Int :=
  jitter (Linear.BackOff Quantum n) u

/-- Go `JitteredExponential.BackOff`. -/
def JitteredExponential.BackOff (Quantum : Int) (n : Nat) (u : Nat) : Option Int :=
  jitter (Exponential.BackOff Quantum n) u

/-- Value of `time.Millisecond` in nanoseconds. -/
def Millisecond : Int := 1000000

/-- Value of `time.Second` in nanoseconds. -/
def Second : Int := 1000 * Millisecond

/-- The fields of `retry.Client` (the wrapped `http.Client` is external). `strategy i` is
what `c.strategy.BackOff(i)` returns. -/
structure Client where
  maxRetries : Int
  strategy : Nat → Int

/-- What `ioutil.ReadAll(req.Body)` finds: no body, a body read without error, or a read
error. -/
inductive Body
  | nilBody
  | readable
  | unreadable (err : circuit2.GoError)

/-- What one `Do` call produces: the returned pair, the number of transport invocations and
the arguments of the `time.Sleep` calls, in order. -/
structure DoResult where
  resp : Option circuit2.Response
  err : Option circuit2.GoError
  calls : Nat
  sleeps : List Int
  deriving DecidableEq, Repr

/-- The `break` test of the loop of `Do`: a nil error with a status below 500, or an error
matching `context.Canceled`. -/
def stops : circuit2.Reply → Bool
  | .ok resp => decide (resp.StatusCode < circuit2.StatusInternalServerError)
  | .fail _ err => circuit2.isCanceled err

/-- The loop of `Do`, started at index `i` with `left` iterations to go before
`i < c.maxRetries` fails. `transport i` is the reply to attempt `i`. -/
def Do.loop (c : Client) (transport : Nat → circuit2.Reply) :
    (left : Nat) → (i : Nat) → DoResult → DoResult
  | 0, _, acc => acc
  | left + 1, i, acc =>
    let r := transport i
    let acc₁ : DoResult :=
      { resp := r.resp, err := r.err, calls := acc.calls + 1, sleeps := acc.sleeps }
    if stops r then
      acc₁
    else
      Do.loop c transport left (i + 1) { acc₁ with sleeps := acc₁.sleeps ++ [c.strategy i] }

/-- Go `retry.Client.Do`. -/
def Do (c : Client) (body : Body) (transport : Nat → circuit2.Reply) : DoResult :=
  match body with
  | .unreadable err => { resp := none, err := some err, calls := 0, sleeps := [] }
  | _ => Do.loop c transport c.maxRetries.toNat 0
      { resp := none, err := none, calls := 0, sleeps := [] }

/-- Index of the first reply, among the first `m`, at which the loop stops; `m` when there
is none. -/
def firstStop (transport : Nat → circuit2.Reply) (m : Nat) : Nat :=
  ((List.range m).find? (fun i => stops (transport i))).getD m

/-- A transport that answers the replies of a list in order, and the last argument
afterwards. -/
def script (rs : List circuit2.Reply) (last : circuit2.Reply) : Nat → circuit2.Reply :=
  fun k => rs.getD k last

end retry

/-!
The scatter-gather clients (`part3/sgerrgroup`, `part3/sgctx`).

An execution is given by the outcomes of the `c.concurrency` attempts in the order in which
the goroutines complete, so that every order of completion is covered. A `Do` call that waits
for ever on a channel is the result `blocked`.
-/

namespace sg

/-- An error returned by `http.Client.Do` inside an attempt: whether `errors.As` finds a
`*url.Error` in it and whether `errors.Is` matches it with `context.Canceled`. -/
structure AttemptError where
  asURLError : Bool
  isCanceled : Bool
  tag : Nat
  deriving DecidableEq, Repr

/-- Outcome of one attempt. -/
inductive Attempt
  | ok (resp : circuit2.Response)
  | fail (err : AttemptError)
  deriving DecidableEq, Repr

/-- Result of a `Do` call. -/
inductive Result
  | returned (resp : Option circuit2.Response) (err : Option AttemptError)
  | blocked
  deriving DecidableEq, Repr

/-- The response an attempt sends on `data`, if any. -/
def Attempt.sent : Attempt → Option circuit2.Response
  | .ok resp => some resp
  | .fail _ => none

/-- The error an attempt returns, if any. -/
def Attempt.error : Attempt → Option AttemptError
  | .ok _ => none
  | .fail err => some err

/-- The receive `<-data` once no goroutine is left to send. -/
def receive : List circuit2.Response → Result
  | resp :: _ => .returned (some resp) none
  | [] => .blocked

end sg

namespace sgerrgroup

/-- Go `sgerrgroup` `Client.Do`. Every attempt that gets a response sends it on the buffered
channel `data` (capacity `c.concurrency`, so no send waits) and the others return their
error; `g.Wait()` returns once all attempts have completed, with the first error returned. -/
def Do (outcomes : List sg.Attempt) : sg.Result :=
  let data := outcomes.filterMap sg.Attempt.sent
  let err := (outcomes.filterMap sg.Attempt.error).head?
  match err with
  | some e => if !e.asURLError then .returned none (some e) else sg.receive data
  | none => sg.receive data

end sgerrgroup

namespace sgctx

/-- A value sent by an attempt on one of the two channels. -/
inductive Sent
  | data (resp : circuit2.Response)
  | errs (err : sg.AttemptError)
  deriving DecidableEq, Repr

/-- What an attempt of `sgctx` sends: its response on `data`, its error on `errs` unless
the error matches `context.Canceled`, in which case nothing. -/
def send : sg.Attempt → Option Sent
  | .ok resp => some (.data resp)
  | .fail err => if !err.isCanceled then some (.errs err) else none

/-- The response of a value sent on `data`. -/
def Sent.resp : Sent → Option circuit2.Response
  | .data resp => some resp
  | .errs _ => none

/-- The error of a value sent on `errs`. -/
def Sent.error : Sent → Option sg.AttemptError
  | .data _ => none
  | .errs err => some err

/-- Go `sgctx` `Client.Do`. Both channels are buffered, so no send waits. The `select` takes
its decision when at least one value has been sent; `lag` is the number of further sends
made by then, and `coin` is the choice of `select` when both channels are ready. -/
def Do (outcomes : List sg.Attempt) (lag : Nat) (coin : Bool) : sg.Result :=
  match outcomes.filterMap send with
  | [] => .blocked
  | s :: rest =>
    let ready := s :: rest.take lag
    match (ready.filterMap Sent.resp).head?, (ready.filterMap Sent.error).head? with
    | some resp, none => .returned (some resp) none
    | none, some err => .returned none (some err)
    | some resp, some err => if coin then .returned (some resp) none else .returned none (some err)
    | none, none => .blocked

end sgctx

/-!
The hedged client (`part3/hproxy/internal/hedged`).

`Do` is a loop of the calling goroutine around a `select`, next to the goroutines of the
attempts. An execution is a list of events, in the order in which they happen: the timer of
`time.After` taken by the `select`, the return of the `client.Do` call of a running attempt
(followed by its send, if any), and the `select` taking `data` or `errs`. Events that cannot
happen in the state reached (a completion when no attempt is running, a receive on an empty
channel) are skipped. After `Do` has returned, the remaining completions still happen.
-/

namespace hedged

/-- The fields of `hedged.Client` that `Do` reads, apart from the wrapped `http.Client` and
from `delay`, whose expiry is the event `timer` (`make` panics on a negative capacity, so
`concurrency` is a natural number). -/
structure Client where
  concurrency : Nat

/-- State of an execution of `Do`. -/
structure State where
  -- variable `n`: the number of attempts launched
  n : Nat
  -- attempts launched whose `client.Do` call has not returned yet
  running : Nat
  -- content of the buffered channel `data`
  data : List circuit2.Response
  -- content of the buffered channel `errs`
  errs : List sg.AttemptError
  -- attempts waiting on a send because the channel is full
  waiting : Nat
  -- number of values sent on the two channels so far
  sends : Nat
  deriving DecidableEq, Repr

/-- An event of an execution. -/
inductive Event
  | timer
  | complete (a : sg.Attempt)
  | recvData
  | recvErrs
  deriving DecidableEq, Repr

/-- State at the entry of `Do`: empty channels, `n := 0`. -/
def State.init : State :=
  { n := 0, running := 0, data := [], errs := [], waiting := 0, sends := 0 }

/-- The head of the loop: `if n < c.concurrency { n++; go func() ... }`. -/
def launch (c : Client) (s : State) : State :=
  if s.n < c.concurrency then { s with n := s.n + 1, running := s.running + 1 } else s

/-- A send on a channel of capacity `c.concurrency` holding `held` values: it goes through
when the channel is not full, and the sender waits otherwise. -/
def canSend (c : Client) (held : Nat) : Bool := decide (held < c.concurrency)

/-- The body of an attempt once its `client.Do` call has returned `a`: a response is sent on
`data`, an error that does not match `context.Canceled` on `errs`, and nothing otherwise. -/
def complete (c : Client) (s : State) (a : sg.Attempt) : State :=
  if s.running = 0 then s
  else
    let s₁ : State := { s with running := s.running - 1 }
    match a with
    | .ok res =>
      if canSend c s₁.data.length then
        { s₁ with data := s₁.data ++ [res], sends := s₁.sends + 1 }
      else { s₁ with waiting := s₁.waiting + 1 }
    | .fail err =>
      if !err.isCanceled then
        if canSend c s₁.errs.length then
          { s₁ with errs := s₁.errs ++ [err], sends := s₁.sends + 1 }
        else { s₁ with waiting := s₁.waiting + 1 }
      else s₁

/-- What happens after `Do` has returned: the attempts still running complete. -/
def drain (c : Client) : State → List Event → State
  | s, [] => s
  | s, .complete a :: es => drain c (complete c s a) es
  | s, _ :: es => drain c s es

/-- The `select` of the loop. The first component is the pair returned by `Do`, or `none`
when the events end before `Do` returns. -/
def loop (c : Client) :
    State → List Event → Option (Option circuit2.Response × Option sg.AttemptError) × State
  | s, [] => (none, s)
  | s, .timer :: es => loop c (launch c s) es
  | s, .complete a :: es => loop c (complete c s a) es
  | s, .recvData :: es =>
    match s.data with
    | resp :: rest => (some (some resp, none), drain c { s with data := rest } es)
    | [] => loop c s es
  | s, .recvErrs :: es =>
    match s.errs with
    | err :: rest => (some (none, some err), drain c { s with errs := rest } es)
    | [] => loop c s es

/-- Go `hedged.Client.Do`. -/
def Do (c : Client) (es : List Event) :
    Option (Option circuit2.Response × Option sg.AttemptError) × State :=
  loop c (launch c State.init) es

/-- Number of timer events of an execution. -/
def timers (es : List Event) : Nat := es.count .timer

/-- The invariant of an execution: at most `c.concurrency` attempts are launched, the
values held by the two channels and the running attempts are together at most the attempts
launched, no attempt waits on a send, and the values sent are at most the attempts
completed. -/
def Inv (c : Client) (s : State) : Prop :=
  s.n ≤ c.concurrency ∧ s.data.length + s.errs.length + s.running ≤ s.n ∧ s.waiting = 0 ∧
    s.sends + s.running ≤ s.n

/-- The values held by the channels all come from completions of the execution `all`: the
responses from attempts with a nil error, the errors from attempts whose error does not match
`context.Canceled`. -/
def Sourced (all : List Event) (s : State) : Prop :=
  (∀ r ∈ s.data, Event.complete (.ok r) ∈ all) ∧
  (∀ e ∈ s.errs, e.isCanceled = false ∧ Event.complete (.fail e) ∈ all)

end hedged

/-!
The request contexts of the fan-out clients (`hedged`, `sgerrgroup`, `sgctx`).

A context is the list of the cancellation scopes it depends on, innermost first:
`context.Background()` depends on none, `context.WithCancel(parent)` (or a deadline) adds one
scope to the scopes of its parent, and a context is cancelled as soon as one of its scopes
has fired.
-/

namespace fanout

/-- A `context.Context`: its cancellation scopes. -/
structure Context where
  scopes : List Nat
  deriving DecidableEq, Repr

/-- Go `context.Background()`. -/
def Background : Context := { scopes := [] }

/-- Go `context.WithCancel(parent)`; `scope` names the new cancellation scope. -/
def WithCancel (parent : Context) (scope : Nat) : Context :=
  { scopes := scope :: parent.scopes }

/-- Whether a context is cancelled when the scopes selected by `fired` have fired. -/
def Context.cancelled (ctx : Context) (fired : Nat → Bool) : Bool := ctx.scopes.any fired

/-- The part of `http.Request` concerned: its context. -/
structure Request where
  ctx : Context
  deriving DecidableEq, Repr

/-- Go `req.WithContext(ctx)`. -/
def Request.WithContext (_req : Request) (ctx : Context) : Request := { ctx := ctx }

/-- The request handed to the transport by `Do` in `hedged`, `sgerrgroup` and `sgctx`:
`ctx, cancel := context.WithCancel(context.Background())` and then
`reqCtx := req.WithContext(ctx)`. -/
def reqCtx (req : Request) (scope : Nat) : Request :=
  req.WithContext (WithCancel Background scope)

/-- The request handed to the transport by `Do` in the sibling `sg` (`part3/sg`), as in
`retry` and `circuit2`: `c.client.Do(req)`, the caller's request itself. -/
def sgRequest (req : Request) : Request := req

/-- A caller's request whose context has one cancellation scope, numbered 1, as made by
`http.NewRequestWithContext` with a context from `context.WithCancel` or
`context.WithTimeout`. -/
def callerRequest : Request := { ctx := WithCancel Background 1 }

end fanout

/-!
The polling breaker (`part2/circuit`).

The goroutine started by `NewBreaker` runs `tick` at each tick of its ticker until `done` is
closed. `Do` gets the pair returned by `task`. Panics are the result `none`.
-/

namespace circuit

/-- The fields of `Breaker`; `done` records whether the channel `done` is closed. -/
structure Breaker where
  state : circuit2.breakerState
  nfail : Nat
  threshold : Nat
  done : Bool
  deriving DecidableEq, Repr

/-- Go `NewBreaker` (the tick duration belongs to the ticker). -/
def NewBreaker (threshold : Nat) : Breaker :=
  { state := .closed, nfail := 0, threshold := threshold, done := false }

/-- The `case <-ticker.C` of the goroutine of `NewBreaker`. -/
def tick (b : Breaker) : Breaker :=
  match b.state with
  | .open_ => { b with state := .halfOpen }
  | .halfOpen => if b.nfail = 0 then { b with state := .closed } else { b with state := .open_ }
  | .closed => if b.threshold ≤ b.nfail then { b with state := .open_ } else b

/-- Go `Breaker.Stop`: `close(b.done)`, which panics on a closed channel. -/
def Stop (b : Breaker) : Option Breaker :=
  if b.done then none else some { b with done := true }

/-- What one `Do` call produces: the returned pair, the breaker afterwards and the number of
calls of `task`. -/
structure DoResult where
  resp : Option circuit2.Response
  err : Option circuit2.GoError
  breaker : Breaker
  calls : Nat
  deriving DecidableEq, Repr

/-- Go `Breaker.Do`; `resp` and `err` are what `task()` returns. The error returned in state
open is `ErrCircuitBreakerOpen`, written `ErrBreakerOpen`. The test
`(err != nil && !errors.Is(err, context.Canceled)) || resp.StatusCode >= 500` reads
`resp.StatusCode` when its first operand is false, and panics there when `resp` is nil. -/
def Do (b : Breaker) (resp : Option circuit2.Response) (err : Option circuit2.GoError) :
    Option DoResult :=
  if b.state = .open_ then
    some { resp := none, err := some .ErrBreakerOpen, breaker := b, calls := 0 }
  else if err ≠ none ∧ circuit2.errorsIsCanceled err = false then
    some { resp := resp, err := err, breaker := { b with nfail := (b.nfail + 1) % 2 ^ 64 },
           calls := 1 }
  else
    match resp with
    | none => none
    | some r =>
      if 500 ≤ r.StatusCode then
        some { resp := resp, err := err,
               breaker := { b with nfail := (b.nfail + 1) % 2 ^ 64 }, calls := 1 }
      else
        some { resp := resp, err := err, breaker := b, calls := 1 }

/-- An event of the life of a breaker: a tick of the goroutine, or a `Do` call whose task
returns the given pair. -/
inductive Event
  | tick
  | call (resp : Option circuit2.Response) (err : Option circuit2.GoError)
  deriving DecidableEq, Repr

/-- A sequence of events on a breaker; `none` when a `Do` call panics. -/
def run : Breaker → List Event → Option Breaker
  | b, [] => some b
  | b, .tick :: es => run (tick b) es
  | b, .call resp err :: es =>
    match Do b resp err with
    | none => none
    | some r => run r.breaker es

end circuit

/-!
The threader application (`part2/threader`): the analytics store, the simulated failures of
the archive service and the replies of the handlers to a validation error.
-/

namespace model

/-- Go `model.Score`. -/
structure Score where
  ThreadID : String
  MessageID : String
  Votes : Int
  deriving DecidableEq, Repr

/-- Go `model.Analytics`; the records are held by value. -/
structure Analytics where
  stats : List Score
  deriving DecidableEq, Repr

/-- Go `NewAnalyticsStore`. -/
def NewAnalyticsStore : Analytics := { stats := [] }

/-- The test `s.ThreadID == score.ThreadID && s.MessageID == score.MessageID`. -/
def sameKey (s score : Score) : Bool :=
  s.ThreadID == score.ThreadID && s.MessageID == score.MessageID

/-- The loop of `AddScore`: `some` of the new slice when a record with the key of `s` is
met (the function returns there), `none` when the loop ends without one. -/
def AddScore.scan (s : Score) : List Score → Option (List Score)
  | [] => none
  | score :: rest =>
    if sameKey s score then
      some (if score.Votes < s.Votes then s :: rest else score :: rest)
    else
      (AddScore.scan s rest).map (fun l => score :: l)

/-- Go `Analytics.AddScore`. -/
def Analytics.AddScore (a : Analytics) (s : Score) : Analytics :=
  match AddScore.scan s a.stats with
  | some stats => { stats := stats }
  | none => { stats := a.stats ++ [s] }

/-- Number of records with the key of `s`. -/
def Analytics.count (a : Analytics) (s : Score) : Nat := (a.stats.filter (sameKey s)).length

/-- The first record with the key of `s`. -/
def Analytics.lookup (a : Analytics) (s : Score) : Option Score := a.stats.find? (sameKey s)

/-- The records with another key than `s`, in order. -/
def Analytics.others (a : Analytics) (s : Score) : List Score :=
  a.stats.filter (fun r => !sameKey s r)

end model

namespace validate

/-- The kinds of error `validate.JSON` returns (the handlers switch on the type only). -/
inductive Error
  | ErrJSONSyntax
  | ErrInvalidValue
  | ErrUnknownField
  | ErrEmpty
  | ErrSzExceeded
  | ErrGeneric
  | ErrMultipleObjects
  deriving DecidableEq, Repr

/-- A non-nil error of the first `dec.Decode(&obj)` call, by the five tests `JSON` makes on
it: `errors.As` with `*json.SyntaxError`, `errors.As` with `*json.UnmarshalTypeError`, a
message that starts with `json: unknown field `, `errors.Is` with `io.EOF`, and a message
containing `too large`. -/
structure DecodeError where
  isSyntaxError : Bool
  isUnmarshalTypeError : Bool
  unknownField : Bool
  isEOF : Bool
  tooLarge : Bool
  deriving DecidableEq, Repr

/-- Go `validate.JSON`. `first` is what the first `Decode` gives (the object or an error) and
`secondEOF` whether the second `Decode` returns `io.EOF`. -/
def JSON {τ : Type} (first : Except DecodeError τ) (secondEOF : Bool) : Except Error τ :=
  match first with
  | .error err =>
    if err.isSyntaxError then .error .ErrJSONSyntax
    else if err.isUnmarshalTypeError then .error .ErrInvalidValue
    else if err.unknownField then .error .ErrUnknownField
    else if err.isEOF then .error .ErrEmpty
    else if err.tooLarge then .error .ErrSzExceeded
    else .error .ErrGeneric
  | .ok obj => if !secondEOF then .error .ErrMultipleObjects else .ok obj

/-- The error of `Decode` on the body `}`: a `*json.SyntaxError` (invalid character `}`
looking for the beginning of a value). -/
def syntaxError : DecodeError :=
  { isSyntaxError := true, isUnmarshalTypeError := false, unknownField := false,
    isEOF := false, tooLarge := false }

/-- The error of `Decode` on a string where a number is expected, as in the body
`{"votes":"x"}`: a `*json.UnmarshalTypeError`. -/
def unmarshalTypeError : DecodeError :=
  { isSyntaxError := false, isUnmarshalTypeError := true, unknownField := false,
    isEOF := false, tooLarge := false }

/-- The error of `Decode` on a field the object does not have, as in the body `{"x":1}`:
its message starts with `json: unknown field `. -/
def unknownFieldError : DecodeError :=
  { isSyntaxError := false, isUnmarshalTypeError := false, unknownField := true,
    isEOF := false, tooLarge := false }

/-- The error of `Decode` on the truncated body `{`: `io.ErrUnexpectedEOF`, which none of
the five tests matches. -/
def unexpectedEOF : DecodeError :=
  { isSyntaxError := false, isUnmarshalTypeError := false, unknownField := false,
    isEOF := false, tooLarge := false }

end validate

namespace threader

/-- An `http.ResponseWriter`: the status of the first `WriteHeader` call, if any. -/
structure ResponseWriter where
  status : Option Nat
  deriving DecidableEq, Repr

/-- The writer a handler receives. -/
def ResponseWriter.fresh : ResponseWriter := { status := none }

/-- Go `http.Error(w, text, code)`, as far as the status goes: a `WriteHeader(code)`, which
is ignored when a header has been written. -/
def httpError (w : ResponseWriter) (code : Nat) : ResponseWriter :=
  match w.status with
  | none => { status := some code }
  | some _ => w

/-- The status the client receives: 200 when the handler returns without `WriteHeader`. -/
def ResponseWriter.sent (w : ResponseWriter) : Nat := w.status.getD 200

/-- The `switch err.(type)` that `newScore`, `newThread` and `newMessage` run on a validation
error (the same text in the three handlers). A Go `case` does not fall through: the cases
`ErrJSONSyntax`, `ErrInvalidValue` and `ErrUnknownField` are empty, and `ErrMultipleObjects`
has no case. -/
def writeValidationError (err : validate.Error) (w : ResponseWriter) : ResponseWriter :=
  match err with
  | .ErrJSONSyntax => w
  | .ErrInvalidValue => w
  | .ErrUnknownField => w
  | .ErrEmpty => httpError w 400
  | .ErrSzExceeded => httpError w 413
  | .ErrGeneric => httpError w 500
  | .ErrMultipleObjects => w

/-- Go `Broker.newThread`; `body` is the result of `validate.JSON`, and `rest` the handler
after a successful validation. -/
def newThread {σ τ : Type} (contentType : String) (body : Except validate.Error τ)
    (rest : τ → ResponseWriter × σ → ResponseWriter × σ) (store : σ) : ResponseWriter × σ :=
  if contentType ≠ "application/json" then
    (httpError .fresh 415, store)
  else
    match body with
    | .error err => (writeValidationError err .fresh, store)
    | .ok t => rest t (.fresh, store)

/-- Go `Broker.newMessage`; `body` is the result of `validate.JSON`, and `rest` the handler
after a successful validation. -/
def newMessage {σ τ : Type} (contentType : String) (body : Except validate.Error τ)
    (rest : τ → ResponseWriter × σ → ResponseWriter × σ) (store : σ) : ResponseWriter × σ :=
  if contentType ≠ "application/json" then
    (httpError .fresh 415, store)
  else
    match body with
    | .error err => (writeValidationError err .fresh, store)
    | .ok m => rest m (.fresh, store)

end threader

namespace archive

/-- The fields of `Archive` that the failure simulation and `newScore` use. -/
structure Archive where
  store : model.Analytics
  nfail : Int
  restore : Int
  deriving DecidableEq, Repr

/-- Go `rand.Intn(n)`: panics (`none`) when `n ≤ 0`, and returns a value of `[0, n)`
otherwise; `u` is the raw value drawn from the generator. -/
def Intn (n : Int) (u : Nat) : Option Int :=
  if n ≤ 0 then none else some ((u : Int) % n)

/-- Go `Archive.fail`; `now` is the clock and `u` the draw. -/
def fail (a : Archive) (now : Int) (u : Nat) : Option Archive :=
  match Intn 10 u with
  | none => none
  | some k =>
    let extend := 1 + k
    some { a with restore := now + extend * retry.Millisecond, nfail := 1 }

/-- What `updateStatus` produces: whether the error returned is non-nil, the archive
afterwards, and the argument of `time.Sleep` when it is called. -/
structure UpdateResult where
  failed : Bool
  archive : Archive
  slept : Option Int
  deriving DecidableEq, Repr

/-- Go `Archive.updateStatus`. `now₁`, `now₂`, `now₃` are the clock readings of its three
`time.Now()` calls (the last one inside `time.Until`) and `u₁`, `u₂`, `u₃` the draws of its
three `rand.Intn` calls. `none` is a panic. -/
def updateStatus (a : Archive) (now₁ now₂ now₃ : Int) (u₁ u₂ u₃ : Nat) :
    Option UpdateResult :=
  if a.restore < now₁ then
    some { failed := false, archive := { a with nfail := 0 }, slept := none }
  else
    let nfail := Int.tmod (a.nfail + 1) 100
    match Intn 10 u₁ with
    | none => none
    | some k =>
      let extend := nfail + 1 + k
      let restore := a.restore + extend * retry.Millisecond
      let a₁ : Archive := { a with nfail := nfail, restore := restore }
      match Intn nfail u₂ with
      | none => none
      | some r =>
        if 90 ≤ r then
          match Intn 100 u₃ with
          | none => none
          | some j =>
            let interval := j * retry.Millisecond
            let interval := if restore < now₂ + interval then restore - now₃ else interval
            some { failed := true, archive := a₁, slept := some interval }
        else
          some { failed := true, archive := a₁, slept := none }

/-- The clock readings and draws of one `newScore` call: those of `updateStatus`, the outcome
of the test `rand.Float64() >= 0.90`, and the clock and draw of `fail`. -/
structure Env where
  now₁ : Int
  now₂ : Int
  now₃ : Int
  u₁ : Nat
  u₂ : Nat
  u₃ : Nat
  failure : Bool
  nowFail : Int
  uFail : Nat
  deriving DecidableEq, Repr

/-- Go `Archive.newScore`; `body` is the result of `validate.JSON`. `none` is a panic. -/
def newScore (a : Archive) (e : Env) (contentType : String)
    (body : Except validate.Error model.Score) : Option (threader.ResponseWriter × Archive) :=
  match updateStatus a e.now₁ e.now₂ e.now₃ e.u₁ e.u₂ e.u₃ with
  | none => none
  | some r =>
    if r.failed then
      some (threader.httpError .fresh 500, r.archive)
    else if e.failure then
      match fail r.archive e.nowFail e.uFail with
      | none => none
      | some a₁ => some (threader.httpError .fresh 500, a₁)
    else if contentType ≠ "application/json" then
      some (threader.httpError .fresh 415, r.archive)
    else
      match body with
      | .error err => some (threader.writeValidationError err .fresh, r.archive)
      | .ok s => some (.fresh, { r.archive with store := r.archive.store.AddScore s })

/-- An archive with an empty store, outside a failure window. -/
def idle : Archive := { store := model.NewAnalyticsStore, nfail := 0, restore := 0 }

/-- A `newScore` call at time 10 without simulated failure. -/
def calm : Env :=
  { now₁ := 10, now₂ := 10, now₃ := 10, u₁ := 0, u₂ := 0, u₃ := 0, failure := false,
    nowFail := 10, uFail := 0 }

end archive

namespace circuit2

variable {β : Type}

/-! ## Step lemmas for `pre` and `post` -/

theorem pre_of_not_open (c : Client β) (now₁ now₂ : Int) (h : c.state ≠ .open_) :
    pre c now₁ now₂ = (none, c) := by
  simp [pre, h]

theorem pre_open_reject (c : Client β) (now₁ now₂ : Int) (h : c.state = .open_)
    (ht : now₁ ≤ c.timeout) : pre c now₁ now₂ = (some .ErrBreakerOpen, c) := by
  simp [pre, h, ht]

theorem pre_open_admitted (c : Client β) (now₁ now₂ : Int) (h : c.state = .open_)
    (ht : c.timeout < now₁) :
    pre c now₁ now₂ = (none, { c with state := .halfOpen, timeout := now₂ + c.cooldown }) := by
  simp [pre, h, ht]

theorem pre_admitted_state (c : Client β) (now₁ now₂ : Int)
    (h : (pre c now₁ now₂).1 = none) : (pre c now₁ now₂).2.state ≠ .open_ := by
  unfold pre at h ⊢
  by_cases hs : c.state = .open_
  · by_cases ht : c.timeout < now₁
    · simp [hs, ht]
    · simp [hs, ht] at h
  · simp [hs]

theorem post_eq_none_iff (B : BackOff β) (c : Client β) (err : Option GoError)
    (statusCode now : Int) : post B c err statusCode now = none ↔ c.state = .open_ := by
  constructor
  · intro h
    by_contra hs
    unfold post at h
    simp only [hs, if_false] at h
    split at h
    · simp at h
    · cases hst : c.state <;> simp [hst] at h hs
      all_goals (split at h <;> simp at h)
  · intro h
    simp [post, h]

/-- The branch test of `post` is the specification's classification. -/
theorem branch_iff_not_failure (err : Option GoError) (statusCode : Int) :
    ((err = none ∧ statusCode < StatusInternalServerError) ∨
      (err ≠ none ∧ errorsIsCanceled err = true)) ↔
    classify err statusCode ≠ .RecoverableFailure := by
  cases err with
  | none =>
    by_cases h : statusCode < 500 <;>
      simp [classify, StatusInternalServerError, errorsIsCanceled, h]
  | some e =>
    cases he : isCanceled e <;> simp [classify, errorsIsCanceled, he]

theorem post_not_failure (B : BackOff β) (c : Client β) (err : Option GoError)
    (statusCode now : Int) (hs : c.state ≠ .open_)
    (ho : classify err statusCode ≠ .RecoverableFailure) :
    post B c err statusCode now =
      some { c with
        state := if c.state = .halfOpen ∧ c.timeout < now then .closed else c.state
        nfail := 0 } := by
  have hb := (branch_iff_not_failure err statusCode).mpr ho
  unfold post
  simp only [hs, if_false, hb, if_true]
  by_cases hh : c.state = .halfOpen ∧ c.timeout < now <;> simp [hh]

theorem post_failure_closed (B : BackOff β) (c : Client β) (err : Option GoError)
    (statusCode now : Int) (hs : c.state = .closed)
    (ho : classify err statusCode = .RecoverableFailure) :
    post B c err statusCode now =
      if c.threshold ≤ (c.nfail + 1) % 2 ^ 64 then
        some { c with
          nfail := (c.nfail + 1) % 2 ^ 64
          state := .open_
          openBackOff := (B.NextBackOff (B.Reset c.openBackOff)).2
          cooldown := (B.NextBackOff (B.Reset c.openBackOff)).1
          timeout := now + (B.NextBackOff (B.Reset c.openBackOff)).1 }
      else some { c with nfail := (c.nfail + 1) % 2 ^ 64 } := by
  have hb : ¬ ((err = none ∧ statusCode < StatusInternalServerError) ∨
      (err ≠ none ∧ errorsIsCanceled err = true)) := by
    rw [branch_iff_not_failure]; simp [ho]
  unfold post
  simp only [hs, hb, if_false]
  simp

theorem post_failure_halfOpen (B : BackOff β) (c : Client β) (err : Option GoError)
    (statusCode now : Int) (hs : c.state = .halfOpen)
    (ho : classify err statusCode = .RecoverableFailure) :
    post B c err statusCode now =
      some { c with
        nfail := (c.nfail + 1) % 2 ^ 64
        state := .open_
        openBackOff := (B.NextBackOff c.openBackOff).2
        cooldown := if (B.NextBackOff c.openBackOff).1 ≠ Stop
          then (B.NextBackOff c.openBackOff).1 else c.cooldown
        timeout := now + (if (B.NextBackOff c.openBackOff).1 ≠ Stop
          then (B.NextBackOff c.openBackOff).1 else c.cooldown) } := by
  have hb : ¬ ((err = none ∧ statusCode < StatusInternalServerError) ∨
      (err ≠ none ∧ errorsIsCanceled err = true)) := by
    rw [branch_iff_not_failure]; simp [ho]
  unfold post
  simp only [hs, hb, if_false]
  simp

/-! ## Step lemmas for `Do` and executions -/

theorem Do_of_not_open (B : BackOff β) (c : Client β) (k : Call) (h : c.state ≠ .open_) :
    Do B c k = (post B c k.reply.err k.reply.statusCode k.now₃).map
      (fun c₂ => { resp := k.reply.resp, err := k.reply.err, client := c₂, calls := 1 }) := by
  unfold Do
  rw [pre_of_not_open c k.now₁ k.now₂ h]
  cases hq : post B c k.reply.err k.reply.statusCode k.now₃ <;> simp [hq]

theorem Do_open_reject (B : BackOff β) (c : Client β) (k : Call) (h : c.state = .open_)
    (ht : k.now₁ ≤ c.timeout) :
    Do B c k = some { resp := none, err := some .ErrBreakerOpen, client := c, calls := 0 } := by
  unfold Do
  rw [pre_open_reject c k.now₁ k.now₂ h ht]

theorem Do_open_admitted (B : BackOff β) (c : Client β) (k : Call) (h : c.state = .open_)
    (ht : c.timeout < k.now₁) :
    Do B c k = Do B { c with state := .halfOpen, timeout := k.now₂ + c.cooldown } k := by
  have h2 : ({ c with state := .halfOpen, timeout := k.now₂ + c.cooldown } : Client β).state
      ≠ .open_ := by simp
  conv_lhs => unfold Do
  rw [pre_open_admitted c k.now₁ k.now₂ h ht, Do_of_not_open B _ k h2]
  cases hq : post B { c with state := .halfOpen, timeout := k.now₂ + c.cooldown }
    k.reply.err k.reply.statusCode k.now₃ <;> simp [hq]

theorem Do_isSome (B : BackOff β) (c : Client β) (k : Call) : (Do B c k).isSome = true := by
  unfold Do
  rcases hp : pre c k.now₁ k.now₂ with ⟨e, c₁⟩
  cases e with
  | some e => rfl
  | none =>
    have hne : c₁.state ≠ .open_ := by
      have := pre_admitted_state c k.now₁ k.now₂ (by rw [hp])
      rwa [hp] at this
    have hpost : post B c₁ k.reply.err k.reply.statusCode k.now₃ ≠ none := by
      rw [Ne, post_eq_none_iff]; exact hne
    cases hq : post B c₁ k.reply.err k.reply.statusCode k.now₃ with
    | none => exact absurd hq hpost
    | some c₂ => simp [hq]

theorem runDo_isSome (B : BackOff β) (ks : List Call) :
    ∀ c : Client β, (runDo B c ks).isSome = true := by
  induction ks with
  | nil => intro c; rfl
  | cons k ks ih =>
    intro c
    have h := Do_isSome B c k
    cases hd : Do B c k with
    | none => rw [hd] at h; exact absurd h (by simp)
    | some r => simp only [runDo, hd]; exact ih r.client

theorem runDo_append (B : BackOff β) (xs ys : List Call) :
    ∀ c : Client β, runDo B c (xs ++ ys) = (runDo B c xs).bind (fun c₁ => runDo B c₁ ys) := by
  induction xs with
  | nil => intro c; rfl
  | cons k xs ih =>
    intro c
    cases hd : Do B c k with
    | none => simp [runDo, hd]
    | some r => simp only [List.cons_append, runDo, hd]; exact ih r.client

theorem runDo_singleton (B : BackOff β) (c : Client β) (k : Call) :
    runDo B c [k] = (Do B c k).map (fun r => r.client) := by
  cases hd : Do B c k <;> simp [runDo, hd]

/-- A call on a closed breaker whose outcome is not a recoverable failure resets `nfail`. -/
theorem Do_closed_not_failure (B : BackOff β) (c : Client β) (k : Call)
    (hs : c.state = .closed) (ho : k.reply.outcome ≠ .RecoverableFailure) :
    Do B c k = some { resp := k.reply.resp, err := k.reply.err,
                      client := { c with nfail := 0 }, calls := 1 } := by
  have hne : c.state ≠ .open_ := by simp [hs]
  rw [Do_of_not_open B c k hne, post_not_failure B c _ _ _ hne ho]
  simp [hs]

/-- A recoverable failure on a closed breaker that stays below the threshold. -/
theorem Do_closed_failure_below (B : BackOff β) (c : Client β) (k : Call)
    (hs : c.state = .closed) (ho : k.reply.outcome = .RecoverableFailure)
    (hlt : c.nfail + 1 < c.threshold) (ht : c.threshold ≤ 2 ^ 64) :
    Do B c k = some { resp := k.reply.resp, err := k.reply.err,
                      client := { c with nfail := c.nfail + 1 }, calls := 1 } := by
  have hne : c.state ≠ .open_ := by simp [hs]
  have hmod : (c.nfail + 1) % 2 ^ 64 = c.nfail + 1 := Nat.mod_eq_of_lt (by omega)
  rw [Do_of_not_open B c k hne, post_failure_closed B c _ _ _ hs ho, hmod]
  simp [Nat.not_le.mpr hlt]

/-- A recoverable failure on a closed breaker that reaches the threshold. -/
theorem Do_closed_failure_reach (B : BackOff β) (c : Client β) (k : Call)
    (hs : c.state = .closed) (ho : k.reply.outcome = .RecoverableFailure)
    (hge : c.threshold ≤ c.nfail + 1) (ht : c.nfail + 1 < 2 ^ 64) :
    Do B c k = some { resp := k.reply.resp, err := k.reply.err,
                      client := { c with
                        nfail := c.nfail + 1
                        state := .open_
                        openBackOff := (B.NextBackOff (B.Reset c.openBackOff)).2
                        cooldown := (B.NextBackOff (B.Reset c.openBackOff)).1
                        timeout := k.now₃ + (B.NextBackOff (B.Reset c.openBackOff)).1 },
                      calls := 1 } := by
  have hne : c.state ≠ .open_ := by simp [hs]
  have hmod : (c.nfail + 1) % 2 ^ 64 = c.nfail + 1 := Nat.mod_eq_of_lt ht
  rw [Do_of_not_open B c k hne, post_failure_closed B c _ _ _ hs ho, hmod]
  simp [hge]

theorem trailingFailures_nil : trailingFailures [] = 0 := rfl

theorem eq_nil_or_snoc {α : Type} (l : List α) : l = [] ∨ ∃ init last, l = init ++ [last] := by
  rcases List.eq_nil_or_concat l with h | ⟨init, last, h⟩
  · exact Or.inl h
  · exact Or.inr ⟨init, last, by rw [h, List.concat_eq_append]⟩

theorem trailingFailures_concat (os : List Reply) (o : Reply) :
    trailingFailures (os ++ [o]) =
      if o.outcome = .RecoverableFailure then trailingFailures os + 1 else 0 := by
  unfold trailingFailures
  by_cases h : o.outcome = .RecoverableFailure <;>
    simp [List.reverse_append, List.takeWhile_cons, h]

/-- Recoverable failures on a closed breaker, as long as the threshold is not reached,
only count up `nfail`. -/
theorem runDo_closed_failures (B : BackOff β) :
    ∀ (ks : List Call) (c : Client β), c.state = .closed → c.threshold ≤ 2 ^ 64 →
      (∀ k ∈ ks, k.reply.outcome = .RecoverableFailure) →
      c.nfail + ks.length < c.threshold →
      runDo B c ks = some { c with nfail := c.nfail + ks.length } := by
  intro ks
  induction ks with
  | nil => intro c _ _ _ _; simp [runDo]
  | cons k ks ih =>
    intro c hs ht hf hlt
    have hk : k.reply.outcome = .RecoverableFailure := hf k (List.mem_cons_self k ks)
    have hlen : (k :: ks).length = ks.length + 1 := rfl
    rw [hlen] at hlt
    have hstep := Do_closed_failure_below B c k hs hk (by omega) ht
    simp only [runDo, hstep]
    rw [ih { c with nfail := c.nfail + 1 } hs ht
      (fun x hx => hf x (List.mem_cons_of_mem k hx)) (by simp; omega)]
    simp [hlen]
    omega

/-- Before any run of `t` consecutive recoverable failures is complete, the breaker made by
`NewClient` is closed and `nfail` is the number of trailing recoverable failures. -/
theorem runDo_closed_invariant (B : BackOff β) (t : Nat) (ht : t < 2 ^ 64) :
    ∀ ks : List Call,
      (∀ j ≤ ks.length, trailingFailures ((ks.take j).map Call.reply) < t) →
      ∃ c, runDo B (NewClient B t) ks = some c ∧ c.state = .closed ∧ c.threshold = t ∧
        c.nfail = trailingFailures (ks.map Call.reply) := by
  intro ks
  induction ks using List.reverseRecOn with
  | nil => intro _; exact ⟨NewClient B t, rfl, rfl, rfl, rfl⟩
  | append_singleton ks k ih =>
    intro h
    have hpre : ∀ j ≤ ks.length, trailingFailures ((ks.take j).map Call.reply) < t := by
      intro j hj
      have := h j (by simp; omega)
      rwa [List.take_append_of_le_length hj] at this
    obtain ⟨c, hrun, hs, hth, hn⟩ := ih hpre
    have hall := h (ks ++ [k]).length (le_refl _)
    rw [List.take_length, List.map_append, List.map_singleton, trailingFailures_concat] at hall
    rw [runDo_append, hrun, Option.some_bind, runDo_singleton, List.map_append,
      List.map_singleton, trailingFailures_concat]
    by_cases ho : k.reply.outcome = .RecoverableFailure
    · rw [if_pos ho] at hall ⊢
      rw [Do_closed_failure_below B c k hs ho (by rw [hth, hn]; exact hall) (by omega)]
      exact ⟨_, rfl, hs, hth, by simp [hn]⟩
    · rw [if_neg ho]
      rw [Do_closed_not_failure B c k hs ho]
      exact ⟨_, rfl, hs, hth, rfl⟩

/-! ## The claims -/

/-- C1: on a breaker made by `NewClient` with threshold `t ≥ 1`, after `t` consecutive `Do`
calls whose outcome is a recoverable failure the state is open, and a following `Do` whose
clock reading is before the deadline returns `(nil, ErrBreakerOpen)` without invoking the
transport. -/
theorem threshold_failures_open (B : BackOff β) (t : Nat) (ht1 : 1 ≤ t) (ht : t < 2 ^ 64)
    (ks : List Call) (hlen : ks.length = t)
    (hfail : ∀ k ∈ ks, k.reply.outcome = .RecoverableFailure) :
    ∃ c, runDo B (NewClient B t) ks = some c ∧ c.state = .open_ ∧
      ∀ k : Call, k.now₁ < c.timeout →
        Do B c k = some { resp := none, err := some .ErrBreakerOpen, client := c, calls := 0 } := by
  rcases eq_nil_or_snoc ks with rfl | ⟨init, last, rfl⟩
  · simp at hlen; omega
  · have hlen2 : init.length + 1 = t := by simpa using hlen
    have hinit := runDo_closed_failures B init (NewClient B t) rfl (le_of_lt ht)
      (fun k hk => hfail k (List.mem_append_left _ hk))
      (by simp [NewClient]; omega)
    have hlast : last.reply.outcome = .RecoverableFailure :=
      hfail last (List.mem_append_right _ (List.mem_singleton_self last))
    rw [runDo_append, hinit, Option.some_bind, runDo_singleton,
      Do_closed_failure_reach B _ last rfl hlast (by simp [NewClient]; omega)
        (by simp [NewClient]; omega)]
    refine ⟨_, rfl, rfl, ?_⟩
    intro k hk
    exact Do_open_reject B _ k rfl (le_of_lt hk)

/-- Witness of C1: threshold 2, a 503 response and a transport error. -/
theorem threshold_failures_open_witness :
    ∃ c, runDo demoBackOff (NewClient demoBackOff 2)
        [callAt 0 1 (status 503), callAt 2 3 (.fail none (.other 0))] = some c ∧
      c.state = .open_ ∧
      ∀ k : Call, k.now₁ < c.timeout →
        Do demoBackOff c k =
          some { resp := none, err := some .ErrBreakerOpen, client := c, calls := 0 } :=
  threshold_failures_open demoBackOff 2 (by decide) (by decide) _ rfl (by decide)

/-- C2: when the state is open and the clock is before the deadline, `Do` returns
`(nil, ErrBreakerOpen)`, invokes the transport zero times and leaves the client (state,
`nfail`, `cooldown`, `timeout` and all other fields) unchanged. -/
theorem Do_open_before_deadline (B : BackOff β) (c : Client β) (k : Call)
    (hs : c.state = .open_) (ht : k.now₁ < c.timeout) :
    ∃ r, Do B c k = some r ∧ r.resp = none ∧ r.err = some .ErrBreakerOpen ∧ r.calls = 0 ∧
      r.client = c ∧ r.client.state = c.state ∧ r.client.nfail = c.nfail ∧
      r.client.cooldown = c.cooldown ∧ r.client.timeout = c.timeout :=
  ⟨_, Do_open_reject B c k hs (le_of_lt ht), rfl, rfl, rfl, rfl, rfl, rfl, rfl, rfl⟩

/-- Witness of C2: the open breaker with deadline 500, called at time 100. -/
theorem Do_open_before_deadline_witness :
    ∃ r, Do demoBackOff openClient (callAt 100 101 (status 200)) = some r ∧ r.resp = none ∧
      r.err = some .ErrBreakerOpen ∧ r.calls = 0 ∧
      r.client = openClient ∧ r.client.state = openClient.state ∧
      r.client.nfail = openClient.nfail ∧
      r.client.cooldown = openClient.cooldown ∧ r.client.timeout = openClient.timeout :=
  Do_open_before_deadline demoBackOff openClient (callAt 100 101 (status 200)) rfl (by decide)

/-- C3: for a breaker made by `NewClient` with threshold `t ≥ 1` and any sequence of `Do`
calls: (1) as long as no prefix of the outcomes ends with `t` recoverable failures in a row,
the breaker is closed and `nfail` is the number of recoverable failures since the last other
outcome; (2) at the first prefix that ends with `t` recoverable failures in a row the
breaker is open; (3) `t - 1` failures, one success and `t - 1` more failures leave it closed
with `nfail = t - 1`. -/
theorem nfail_counts_consecutive_failures (B : BackOff β) (t : Nat) (ht1 : 1 ≤ t)
    (ht : t < 2 ^ 64) :
    (∀ ks : List Call,
      (∀ j ≤ ks.length, trailingFailures ((ks.take j).map Call.reply) < t) →
      ∃ c, runDo B (NewClient B t) ks = some c ∧ c.state = .closed ∧
        c.nfail = trailingFailures (ks.map Call.reply)) ∧
    (∀ ks : List Call,
      (∀ j < ks.length, trailingFailures ((ks.take j).map Call.reply) < t) →
      t ≤ trailingFailures (ks.map Call.reply) →
      ∃ c, runDo B (NewClient B t) ks = some c ∧ c.state = .open_) ∧
    (∀ (fs₁ fs₂ : List Call) (s : Call),
      fs₁.length = t - 1 → fs₂.length = t - 1 →
      (∀ k ∈ fs₁ ++ fs₂, k.reply.outcome = .RecoverableFailure) →
      s.reply.outcome = .Success →
      ∃ c, runDo B (NewClient B t) (fs₁ ++ s :: fs₂) = some c ∧ c.state = .closed ∧
        c.nfail = t - 1) := by
  refine ⟨?_, ?_, ?_⟩
  · intro ks h
    obtain ⟨c, hrun, hs, _, hn⟩ := runDo_closed_invariant B t ht ks h
    exact ⟨c, hrun, hs, hn⟩
  · intro ks h hreach
    rcases eq_nil_or_snoc ks with rfl | ⟨init, last, rfl⟩
    · simp [trailingFailures] at hreach; omega
    · have hpre : ∀ j ≤ init.length,
          trailingFailures ((init.take j).map Call.reply) < t := by
        intro j hj
        have := h j (by simp; omega)
        rwa [List.take_append_of_le_length hj] at this
      obtain ⟨c, hrun, hs, hth, hn⟩ := runDo_closed_invariant B t ht init hpre
      have hlt : trailingFailures (init.map Call.reply) < t := by
        have := hpre init.length (le_refl _)
        rwa [List.take_length] at this
      rw [List.map_append, List.map_singleton, trailingFailures_concat] at hreach
      have ho : last.reply.outcome = .RecoverableFailure := by
        by_contra hne
        rw [if_neg hne] at hreach
        omega
      rw [if_pos ho] at hreach
      rw [runDo_append, hrun, Option.some_bind, runDo_singleton,
        Do_closed_failure_reach B c last hs ho (by omega) (by omega)]
      exact ⟨_, rfl, rfl⟩
  · intro fs₁ fs₂ s h₁ h₂ hf hsucc
    have hrun₁ := runDo_closed_failures B fs₁ (NewClient B t) rfl (le_of_lt ht)
      (fun k hk => hf k (List.mem_append_left _ hk)) (by simp [NewClient]; omega)
    have hne : s.reply.outcome ≠ .RecoverableFailure := by simp [hsucc]
    rw [runDo_append, hrun₁, Option.some_bind]
    simp only [runDo]
    rw [Do_closed_not_failure B _ s rfl hne]
    simp only []
    rw [runDo_closed_failures B fs₂ _ rfl (le_of_lt ht)
      (fun k hk => hf k (List.mem_append_right _ hk)) (by simp [NewClient]; omega)]
    exact ⟨_, rfl, rfl, by simp [h₂]⟩

/-- Witness of C3: threshold 2, a failure, a success and a failure leave the breaker closed
with one counted failure. -/
theorem nfail_counts_consecutive_failures_witness :
    ∃ c, runDo demoBackOff (NewClient demoBackOff 2)
        ([callAt 0 1 (status 503)] ++ callAt 2 3 (status 200) :: [callAt 4 5 (status 503)])
          = some c ∧ c.state = .closed ∧ c.nfail = 2 - 1 :=
  (nfail_counts_consecutive_failures demoBackOff 2 (by decide) (by decide)).2.2
    [callAt 0 1 (status 503)] [callAt 4 5 (status 503)] (callAt 2 3 (status 200))
    rfl rfl (by decide) (by decide)

/-- C4, counterexample: threshold 1, a failure at time 0..1 opens the breaker with deadline
501; the probe admitted at time 502 succeeds at time 503, before the re-armed deadline 1002,
and `Do` returns with the state half-open, not closed. -/
theorem fast_probe_stays_halfOpen :
    ∃ c r, runDo demoBackOff (NewClient demoBackOff 1) [callAt 0 1 (status 503)] = some c ∧
      c.state = .open_ ∧ c.timeout < 502 ∧ (status 200).outcome = .Success ∧
      Do demoBackOff c (callAt 502 503 (status 200)) = some r ∧ r.calls = 1 ∧
      r.client.state = .halfOpen ∧ r.client.state ≠ .closed :=
  ⟨_, _, rfl, rfl, by decide, by decide, rfl, rfl, rfl, by decide⟩

/-- C4, amended: on an open breaker whose deadline is strictly before the clock, `Do` is
admitted as the half-open probe (one transport invocation, deadline re-armed to the clock
plus the cool-down); if the outcome is a success, `Do` returns it with `nfail = 0`, and the
state is closed when the clock read by `post` is after the re-armed deadline and half-open
otherwise. -/
theorem probe_success (B : BackOff β) (c : Client β) (k : Call) (hs : c.state = .open_)
    (ht : c.timeout < k.now₁) (ho : k.reply.outcome = .Success) :
    ∃ r, Do B c k = some r ∧ r.calls = 1 ∧ r.err = none ∧ r.resp = k.reply.resp ∧
      r.client.nfail = 0 ∧ r.client.timeout = k.now₂ + c.cooldown ∧
      r.client.cooldown = c.cooldown ∧
      r.client.state = if k.now₂ + c.cooldown < k.now₃ then .closed else .halfOpen := by
  have hne : k.reply.outcome ≠ .RecoverableFailure := by simp [ho]
  have herr : k.reply.err = none := by
    cases hr : k.reply with
    | ok r => rfl
    | fail r e =>
      rw [hr] at ho
      cases hc : isCanceled e <;> simp [Reply.outcome, classify, Reply.err, hc] at ho
  rw [Do_open_admitted B c k hs ht, Do_of_not_open B _ k (by simp),
    post_not_failure B _ _ _ _ (by simp) hne]
  exact ⟨_, rfl, rfl, herr, rfl, rfl, rfl, rfl, by simp⟩

/-- Witness of C4 (amended): the probe of the counterexample. -/
theorem probe_success_witness :
    ∃ r, Do demoBackOff openClient (callAt 501 502 (status 200)) = some r ∧ r.calls = 1 ∧
      r.err = none ∧ r.resp = (callAt 501 502 (status 200)).reply.resp ∧
      r.client.nfail = 0 ∧
      r.client.timeout = (callAt 501 502 (status 200)).now₂ + openClient.cooldown ∧
      r.client.cooldown = openClient.cooldown ∧
      r.client.state =
        if (callAt 501 502 (status 200)).now₂ + openClient.cooldown <
            (callAt 501 502 (status 200)).now₃ then .closed else .halfOpen :=
  probe_success demoBackOff openClient (callAt 501 502 (status 200)) rfl (by decide)
    (by decide)

/-- C5, counterexample: with a generator that answers `Stop` after its first interval, the
breaker opened with cool-down 500 returns to open after a failed probe with cool-down 500
again, which is not strictly larger. -/
theorem failed_probe_cooldown_not_larger :
    ∃ c r, runDo shortBackOff (NewClient shortBackOff 1) [callAt 0 1 (status 503)] = some c ∧
      c.state = .open_ ∧ c.timeout < 502 ∧ (status 503).outcome = .RecoverableFailure ∧
      Do shortBackOff c (callAt 502 503 (status 503)) = some r ∧ r.calls = 1 ∧
      r.client.state = .open_ ∧ ¬ (c.cooldown < r.client.cooldown) :=
  ⟨_, _, rfl, rfl, by decide, by decide, rfl, rfl, rfl, by decide⟩

/-- C5, amended: when a call admitted in half-open (the probe leaving open, or a later call
while still half-open) ends in a recoverable failure, the breaker returns to open; its
cool-down becomes the generator's next value, hence strictly larger whenever that value
exceeds the previous cool-down, except that it is left unchanged when the generator answers
`Stop`; the deadline is the clock plus the cool-down. -/
theorem failed_probe_reopens (B : BackOff β) (c : Client β) (k : Call)
    (hadm : c.state = .halfOpen ∨ (c.state = .open_ ∧ c.timeout < k.now₁))
    (ho : k.reply.outcome = .RecoverableFailure) :
    ∃ r, Do B c k = some r ∧ r.calls = 1 ∧ r.client.state = .open_ ∧
      r.client.cooldown =
        (if (B.NextBackOff c.openBackOff).1 ≠ Stop then (B.NextBackOff c.openBackOff).1
          else c.cooldown) ∧
      r.client.timeout = k.now₃ + r.client.cooldown ∧
      ((B.NextBackOff c.openBackOff).1 ≠ Stop →
        c.cooldown < (B.NextBackOff c.openBackOff).1 → c.cooldown < r.client.cooldown) ∧
      ((B.NextBackOff c.openBackOff).1 = Stop → r.client.cooldown = c.cooldown) := by
  rcases hadm with hs | ⟨hs, ht⟩
  · rw [Do_of_not_open B c k (by simp [hs]), post_failure_halfOpen B c _ _ _ hs ho]
    refine ⟨_, rfl, rfl, rfl, rfl, rfl, ?_, ?_⟩
    · intro h1 h2; simp [h1, h2]
    · intro h1; simp [h1]
  · rw [Do_open_admitted B c k hs ht, Do_of_not_open B _ k (by simp),
      post_failure_halfOpen B _ _ _ _ rfl ho]
    refine ⟨_, rfl, rfl, rfl, rfl, rfl, ?_, ?_⟩
    · intro h1 h2; simp [h1, h2]
    · intro h1; simp [h1]

/-- Witness of C5 (amended): the failed probe at time 501 on the open breaker, whose
generator answers 750 next. -/
theorem failed_probe_reopens_witness :
    ∃ r, Do demoBackOff openClient (callAt 501 502 (status 503)) = some r ∧ r.calls = 1 ∧
      r.client.state = .open_ ∧
      r.client.cooldown =
        (if (demoBackOff.NextBackOff openClient.openBackOff).1 ≠ Stop
          then (demoBackOff.NextBackOff openClient.openBackOff).1
          else openClient.cooldown) ∧
      r.client.timeout = (callAt 501 502 (status 503)).now₃ + r.client.cooldown ∧
      ((demoBackOff.NextBackOff openClient.openBackOff).1 ≠ Stop →
        openClient.cooldown < (demoBackOff.NextBackOff openClient.openBackOff).1 →
        openClient.cooldown < r.client.cooldown) ∧
      ((demoBackOff.NextBackOff openClient.openBackOff).1 = Stop →
        r.client.cooldown = openClient.cooldown) :=
  failed_probe_reopens demoBackOff openClient (callAt 501 502 (status 503))
    (Or.inr ⟨rfl, by decide⟩) (by decide)

/-- C6, counterexample: on the open breaker with deadline 500, `pre` at the instant 500
(so `now ≥ deadline`) returns `ErrBreakerOpen` and leaves the state open. -/
theorem pre_at_deadline_rejects :
    openClient.state = .open_ ∧ openClient.timeout ≤ 500 ∧
      (pre openClient 500 500).1 = some .ErrBreakerOpen ∧
      (pre openClient 500 500).2.state = .open_ :=
  ⟨rfl, by decide, by decide, by decide⟩

/-- C6, amended: for every open breaker and every clock strictly after the deadline, `pre`
returns nil, moves the state to half-open and sets the deadline to the clock (read again)
plus the cool-down, leaving `nfail`, `cooldown` and every other field unchanged. -/
theorem pre_after_deadline (c : Client β) (now₁ now₂ : Int) (hs : c.state = .open_)
    (ht : c.timeout < now₁) :
    (pre c now₁ now₂).1 = none ∧ (pre c now₁ now₂).2.state = .halfOpen ∧
      (pre c now₁ now₂).2.timeout = now₂ + c.cooldown ∧
      (pre c now₁ now₂).2.nfail = c.nfail ∧ (pre c now₁ now₂).2.cooldown = c.cooldown ∧
      (pre c now₁ now₂).2.threshold = c.threshold ∧
      (pre c now₁ now₂).2.openBackOff = c.openBackOff := by
  rw [pre_open_admitted c now₁ now₂ hs ht]
  exact ⟨rfl, rfl, rfl, rfl, rfl, rfl, rfl⟩

/-- Witness of C6 (amended): the open breaker with deadline 500 at time 501. -/
theorem pre_after_deadline_witness :
    (pre openClient 501 501).1 = none ∧ (pre openClient 501 501).2.state = .halfOpen ∧
      (pre openClient 501 501).2.timeout = 501 + openClient.cooldown ∧
      (pre openClient 501 501).2.nfail = openClient.nfail ∧
      (pre openClient 501 501).2.cooldown = openClient.cooldown ∧
      (pre openClient 501 501).2.threshold = openClient.threshold ∧
      (pre openClient 501 501).2.openBackOff = openClient.openBackOff :=
  pre_after_deadline openClient 501 501 rfl (by decide)

/-- C7, counterexample: a closed breaker with three counted failures has `nfail = 0` after
`post` with a cancellation, and a half-open breaker whose deadline 1001 has passed is moved
to closed by `post` with a cancellation: neither call is a no-op. -/
theorem cancel_resets_and_closes :
    ∃ c c₁ c₂, classify (some .Canceled) 0 = .Cancelled ∧
      runDo demoBackOff (NewClient demoBackOff 10)
        [callAt 0 1 (status 503), callAt 2 3 (status 503), callAt 4 5 (status 503)] = some c ∧
      c.state = .closed ∧ c.nfail = 3 ∧
      post demoBackOff c (some .Canceled) 0 7 = some c₁ ∧ c₁.nfail = 0 ∧ c₁.nfail ≠ c.nfail ∧
      (pre openClient 501 501).2.state = .halfOpen ∧
      post demoBackOff (pre openClient 501 501).2 (some .Canceled) 0 1002 = some c₂ ∧
      c₂.state = .closed ∧ c₂.state ≠ (pre openClient 501 501).2.state :=
  ⟨_, _, _, by decide, rfl, rfl, rfl, rfl, rfl, by decide, rfl, rfl, rfl, by decide⟩

/-- C7, amended: in any state other than open, `post` with a cancellation is handled like a
success: it does not panic, never increments `nfail` and never opens the breaker, leaves
`cooldown`, `timeout`, `threshold` and the generator unchanged, sets `nfail` to 0, and
moves half-open to closed when the clock is after the deadline (the state is unchanged
otherwise). -/
theorem post_cancelled (B : BackOff β) (c : Client β) (err : Option GoError)
    (statusCode now : Int) (hs : c.state ≠ .open_)
    (ho : classify err statusCode = .Cancelled) :
    ∃ c₁, post B c err statusCode now = some c₁ ∧ c₁.nfail = 0 ∧ c₁.nfail ≤ c.nfail ∧
      c₁.cooldown = c.cooldown ∧ c₁.timeout = c.timeout ∧ c₁.threshold = c.threshold ∧
      c₁.openBackOff = c.openBackOff ∧ c₁.state ≠ .open_ ∧
      c₁.state = if c.state = .halfOpen ∧ c.timeout < now then .closed else c.state := by
  rw [post_not_failure B c err statusCode now hs (by simp [ho])]
  refine ⟨_, rfl, rfl, Nat.zero_le _, rfl, rfl, rfl, rfl, ?_, rfl⟩
  by_cases hh : c.state = .halfOpen ∧ c.timeout < now
  · simp [hh]
  · simpa [hh] using hs

/-- Witness of C7 (amended): a cancellation on the half-open breaker before its deadline. -/
theorem post_cancelled_witness :
    ∃ c₁, post demoBackOff (pre openClient 501 501).2 (some .Canceled) 0 502 = some c₁ ∧
      c₁.nfail = 0 ∧ c₁.nfail ≤ (pre openClient 501 501).2.nfail ∧
      c₁.cooldown = (pre openClient 501 501).2.cooldown ∧
      c₁.timeout = (pre openClient 501 501).2.timeout ∧
      c₁.threshold = (pre openClient 501 501).2.threshold ∧
      c₁.openBackOff = (pre openClient 501 501).2.openBackOff ∧ c₁.state ≠ .open_ ∧
      c₁.state =
        if (pre openClient 501 501).2.state = .halfOpen ∧
            (pre openClient 501 501).2.timeout < 502
        then .closed else (pre openClient 501 501).2.state :=
  post_cancelled demoBackOff (pre openClient 501 501).2 (some .Canceled) 0 502
    (by decide) (by decide)

/-- C8: `post` panics exactly when it is invoked with the state open; the client that `Do`
hands to `post` (the one `pre` returned with a nil error) is never open; hence no `Do` call
panics, and every sequential execution of `Do` calls on a client made by `NewClient`, for
every threshold, every sequence of transport replies and every clock, runs to its end
without a panic. -/
theorem post_panic_unreachable (B : BackOff β) :
    (∀ (c : Client β) (err : Option GoError) (statusCode now : Int),
      post B c err statusCode now = none ↔ c.state = .open_) ∧
    (∀ (c : Client β) (now₁ now₂ : Int),
      (pre c now₁ now₂).1 ≠ none ∨ (pre c now₁ now₂).2.state ≠ .open_) ∧
    (∀ (c : Client β) (k : Call), (Do B c k).isSome = true) ∧
    (∀ (t : Nat) (ks : List Call), (runDo B (NewClient B t) ks).isSome = true) := by
  refine ⟨post_eq_none_iff B, ?_, Do_isSome B, fun t ks => runDo_isSome B ks _⟩
  intro c now₁ now₂
  by_cases h : (pre c now₁ now₂).1 = none
  · exact Or.inr (pre_admitted_state c now₁ now₂ h)
  · exact Or.inl h

/-- C9: the initial state is closed, and a single `pre` or `post` call either keeps the
state or follows one of the four edges closed to open, open to half-open, half-open to
closed, half-open to open; in particular no call moves closed to half-open or open to
closed. -/
theorem state_changes_follow_edges (B : BackOff β) :
    (∀ t : Nat, (NewClient B t).state = .closed) ∧
    (∀ (c : Client β) (now₁ now₂ : Int),
      ((pre c now₁ now₂).2.state = c.state ∨ allowedEdge c.state (pre c now₁ now₂).2.state) ∧
      ¬ (c.state = .closed ∧ (pre c now₁ now₂).2.state = .halfOpen) ∧
      ¬ (c.state = .open_ ∧ (pre c now₁ now₂).2.state = .closed)) ∧
    (∀ (c : Client β) (err : Option GoError) (statusCode now : Int),
      ∀ c₁ ∈ post B c err statusCode now,
        (c₁.state = c.state ∨ allowedEdge c.state c₁.state) ∧
        ¬ (c.state = .closed ∧ c₁.state = .halfOpen) ∧
        ¬ (c.state = .open_ ∧ c₁.state = .closed)) := by
  refine ⟨fun _ => rfl, ?_, ?_⟩
  · intro c now₁ now₂
    by_cases hs : c.state = .open_
    · by_cases ht : c.timeout < now₁
      · rw [pre_open_admitted c now₁ now₂ hs ht]
        simp [allowedEdge, hs]
      · rw [pre_open_reject c now₁ now₂ hs (not_lt.mp ht)]
        simp [hs]
    · rw [pre_of_not_open c now₁ now₂ hs]
      refine ⟨Or.inl rfl, ?_, ?_⟩
      · rintro ⟨h1, h2⟩
        rw [h1] at h2
        exact absurd h2 (by decide)
      · rintro ⟨h1, _⟩
        exact hs h1
  · intro c err statusCode now c₁ hc₁
    rw [Option.mem_def] at hc₁
    have hs : c.state ≠ .open_ := by
      intro h
      rw [(post_eq_none_iff B c err statusCode now).mpr h] at hc₁
      exact absurd hc₁ (by simp)
    by_cases ho : classify err statusCode = .RecoverableFailure
    · cases hst : c.state with
      | open_ => exact absurd hst hs
      | halfOpen =>
        rw [post_failure_halfOpen B c err statusCode now hst ho] at hc₁
        cases hc₁
        simp [allowedEdge]
      | closed =>
        rw [post_failure_closed B c err statusCode now hst ho] at hc₁
        split at hc₁ <;> cases hc₁ <;> simp [allowedEdge, hst]
    · rw [post_not_failure B c err statusCode now hs ho] at hc₁
      cases hc₁
      cases hst : c.state with
      | open_ => exact absurd hst hs
      | halfOpen => by_cases ht : c.timeout < now <;> simp [allowedEdge, ht]
      | closed => simp [allowedEdge]

/-- C10, counterexample: threshold 1; a failure opens the breaker, the probe admitted at
time 502 succeeds before the re-armed deadline and leaves the state half-open; the call
arriving at time 504, while the state is still half-open, is admitted as well (one more
transport invocation, nil error) and the state is half-open afterwards. -/
theorem second_call_in_halfOpen_admitted :
    ∃ c r, runDo demoBackOff (NewClient demoBackOff 1)
        [callAt 0 1 (status 503), callAt 502 503 (status 200)] = some c ∧
      c.state = .halfOpen ∧
      Do demoBackOff c (callAt 504 505 (status 200)) = some r ∧ r.calls = 1 ∧
      r.err = none ∧ r.client.state = .halfOpen :=
  ⟨_, _, rfl, rfl, rfl, rfl, rfl, rfl⟩

/-- C10, amended: while the state is half-open every call is admitted: `pre` returns nil
and changes nothing, and `Do` invokes the transport once. The breaker leaves half-open only
through the `post` of an admitted call: to open when the outcome is a recoverable failure,
to closed when the outcome is another one and the clock is after the deadline; otherwise it
stays half-open. -/
theorem halfOpen_admits_every_call (B : BackOff β) (c : Client β) (k : Call)
    (hs : c.state = .halfOpen) :
    pre c k.now₁ k.now₂ = (none, c) ∧
    ∃ r, Do B c k = some r ∧ r.calls = 1 ∧ r.resp = k.reply.resp ∧ r.err = k.reply.err ∧
      r.client.state =
        if k.reply.outcome = .RecoverableFailure then .open_
        else if c.timeout < k.now₃ then .closed else .halfOpen := by
  have hne : c.state ≠ .open_ := by simp [hs]
  refine ⟨pre_of_not_open c k.now₁ k.now₂ hne, ?_⟩
  rw [Do_of_not_open B c k hne]
  by_cases ho : k.reply.outcome = .RecoverableFailure
  · rw [post_failure_halfOpen B c _ _ _ hs ho]
    exact ⟨_, rfl, rfl, rfl, rfl, by simp [ho]⟩
  · rw [post_not_failure B c _ _ _ hne ho]
    refine ⟨_, rfl, rfl, rfl, rfl, ?_⟩
    by_cases ht : c.timeout < k.now₃ <;> simp [ho, hs, ht]

/-- Witness of C10 (amended): a second successful call on the half-open breaker. -/
theorem halfOpen_admits_every_call_witness :
    pre (pre openClient 501 501).2 (callAt 504 505 (status 200)).now₁
        (callAt 504 505 (status 200)).now₂ = (none, (pre openClient 501 501).2) ∧
    ∃ r, Do demoBackOff (pre openClient 501 501).2 (callAt 504 505 (status 200)) = some r ∧
      r.calls = 1 ∧ r.resp = (callAt 504 505 (status 200)).reply.resp ∧
      r.err = (callAt 504 505 (status 200)).reply.err ∧
      r.client.state =
        if (callAt 504 505 (status 200)).reply.outcome = .RecoverableFailure then .open_
        else if (pre openClient 501 501).2.timeout < (callAt 504 505 (status 200)).now₃
          then .closed else .halfOpen :=
  halfOpen_admits_every_call demoBackOff (pre openClient 501 501).2
    (callAt 504 505 (status 200)) (by decide)

end circuit2

namespace circuit2

variable {β : Type}

/-- C11, counterexample: on the half-open breaker whose counter holds `2 ^ 64 - 1`, a 503
response (a recoverable failure) leaves `nfail = 0`, not `nfail + 1`, and a 404 response
leaves the same `nfail = 0`. -/
theorem saturated_counter_wraps :
    ∃ c₁ c₂, saturatedClient.state ≠ .open_ ∧
      classify none 503 = .RecoverableFailure ∧
      post demoBackOff saturatedClient none 503 1000 = some c₁ ∧ c₁.nfail = 0 ∧
      c₁.nfail ≠ saturatedClient.nfail + 1 ∧
      post demoBackOff saturatedClient none 404 1000 = some c₂ ∧ c₂.nfail = c₁.nfail :=
  ⟨_, _, by decide, by decide, rfl, by decide, by decide, rfl, by decide⟩

/-- C11, amended: for a breaker not in state open, `post` does not panic; as long as the
`uint64` counter is below its largest value, `nfail` increases by exactly 1 if and only if
the outcome is a non-cancel error or a nil-error response with status 500 or more; and a
nil-error response with a status below 500 never increments `nfail` (it becomes 0) and never
opens the breaker, for every threshold and every counter value. -/
theorem post_counts_failures_only (B : BackOff β) (c : Client β) (err : Option GoError)
    (statusCode now : Int) (hs : c.state ≠ .open_) :
    ∃ c₁, post B c err statusCode now = some c₁ ∧
      (c.nfail + 1 < 2 ^ 64 →
        (c₁.nfail = c.nfail + 1 ↔
          ((∃ e, err = some e ∧ isCanceled e = false) ∨ (err = none ∧ 500 ≤ statusCode)))) ∧
      (err = none → statusCode < 500 →
        c₁.nfail = 0 ∧ c₁.nfail ≤ c.nfail ∧ c₁.state ≠ .open_) := by
  have hcl : classify err statusCode = .RecoverableFailure ↔
      ((∃ e, err = some e ∧ isCanceled e = false) ∨ (err = none ∧ 500 ≤ statusCode)) := by
    cases err with
    | none =>
      by_cases h : statusCode < 500
      · simp [classify, h]
      · simp [classify, h, not_lt.mp h]
    | some e => cases he : isCanceled e <;> simp [classify, he]
  by_cases ho : classify err statusCode = .RecoverableFailure
  · have hnot : ¬ (err = none ∧ statusCode < 500) := by
      rintro ⟨h1, h2⟩
      rw [h1] at ho
      simp [classify, h2] at ho
    cases hst : c.state with
    | open_ => exact absurd hst hs
    | halfOpen =>
      rw [post_failure_halfOpen B c err statusCode now hst ho]
      refine ⟨_, rfl, ?_, ?_⟩
      · intro hn
        simp only [Nat.mod_eq_of_lt hn, true_iff]
        exact hcl.mp ho
      · intro h1 h2; exact absurd ⟨h1, h2⟩ hnot
    | closed =>
      rw [post_failure_closed B c err statusCode now hst ho]
      split
      · refine ⟨_, rfl, ?_, ?_⟩
        · intro hn
          simp only [Nat.mod_eq_of_lt hn, true_iff]
          exact hcl.mp ho
        · intro h1 h2; exact absurd ⟨h1, h2⟩ hnot
      · refine ⟨_, rfl, ?_, ?_⟩
        · intro hn
          simp only [Nat.mod_eq_of_lt hn, true_iff]
          exact hcl.mp ho
        · intro h1 h2; exact absurd ⟨h1, h2⟩ hnot
  · rw [post_not_failure B c err statusCode now hs ho]
    refine ⟨_, rfl, ?_, ?_⟩
    · intro _
      constructor
      · intro h
        simp at h
      · intro h
        exact absurd (hcl.mpr h) ho
    · intro _ _
      refine ⟨rfl, Nat.zero_le _, ?_⟩
      by_cases hh : c.state = .halfOpen ∧ c.timeout < now
      · simp [hh]
      · simpa [hh] using hs

/-- Witness of C11 (amended): a 404 response on a closed breaker with three counted
failures. -/
theorem post_counts_failures_only_witness :
    ∃ c₁, post demoBackOff
        { state := .closed, nfail := 3, threshold := 10, timeout := 0, cooldown := 0,
          openBackOff := 0 } none 404 7 = some c₁ ∧
      ((3 : Nat) + 1 < 2 ^ 64 →
        (c₁.nfail = 3 + 1 ↔
          ((∃ e, (none : Option GoError) = some e ∧ isCanceled e = false) ∨
            ((none : Option GoError) = none ∧ (500 : Int) ≤ 404)))) ∧
      ((none : Option GoError) = none → (404 : Int) < 500 →
        c₁.nfail = 0 ∧ c₁.nfail ≤ 3 ∧ c₁.state ≠ .open_) :=
  post_counts_failures_only demoBackOff
    { state := .closed, nfail := 3, threshold := 10, timeout := 0, cooldown := 0,
      openBackOff := 0 } none 404 7 (by decide)

end circuit2

namespace circuit2

/-- A recoverable failure outside the open state increments the counter modulo `2 ^ 64`. -/
theorem post_failure_nfail {β : Type} (B : BackOff β) (c : Client β) (err : Option GoError)
    (statusCode now : Int) (hs : c.state ≠ .open_)
    (ho : classify err statusCode = .RecoverableFailure) :
    ∃ c₁, post B c err statusCode now = some c₁ ∧ c₁.nfail = (c.nfail + 1) % 2 ^ 64 := by
  cases hst : c.state with
  | open_ => exact absurd hst hs
  | halfOpen =>
    rw [post_failure_halfOpen B c err statusCode now hst ho]
    exact ⟨_, rfl, rfl⟩
  | closed =>
    rw [post_failure_closed B c err statusCode now hst ho]
    split <;> exact ⟨_, rfl, rfl⟩

end circuit2

namespace retry

open circuit2

/-! ## The loop of `retry.Client.Do` -/

/-- The `break` test of the loop is the specification's classification. -/
theorem stops_iff (r : Reply) : stops r = true ↔ r.outcome ≠ .RecoverableFailure := by
  cases r with
  | ok resp =>
    by_cases h : resp.StatusCode < 500 <;>
      simp [stops, Reply.outcome, classify, Reply.err, Reply.statusCode,
        StatusInternalServerError, h]
  | fail resp e =>
    cases he : isCanceled e <;> simp [stops, Reply.outcome, classify, Reply.err, he]

theorem stops_eq_false_iff (r : Reply) : stops r = false ↔ r.outcome = .RecoverableFailure := by
  rw [← Bool.not_eq_true, stops_iff, not_not]

theorem range_succ_map_shift (f : Nat → Int) (i left : Nat) :
    (List.range (left + 1)).map (fun k => f (i + k)) =
      f i :: (List.range left).map (fun k => f (i + 1 + k)) := by
  rw [List.range_succ_eq_map, List.map_cons, List.map_map]
  simp only [Nat.add_zero, List.cons.injEq, true_and]
  apply List.map_congr_left
  intro k _
  simp only [Function.comp, Nat.succ_eq_add_one]
  congr 1
  omega

/-- When every remaining attempt fails, the loop runs to its bound and sleeps after each
attempt, the last one included. -/
theorem loop_all_fail (c : Client) (tr : Nat → Reply) :
    ∀ (left i : Nat) (acc : DoResult), (∀ k, k < left → stops (tr (i + k)) = false) →
      Do.loop c tr left i acc =
        { resp := if left = 0 then acc.resp else (tr (i + left - 1)).resp
          err := if left = 0 then acc.err else (tr (i + left - 1)).err
          calls := acc.calls + left
          sleeps := acc.sleeps ++ (List.range left).map (fun k => c.strategy (i + k)) } := by
  intro left
  induction left with
  | zero => intro i acc _; simp [Do.loop]
  | succ left ih =>
    intro i acc h
    have h0 : stops (tr i) = false := by simpa using h 0 (Nat.succ_pos left)
    have hrest : ∀ k, k < left → stops (tr (i + 1 + k)) = false := by
      intro k hk
      have := h (k + 1) (by omega)
      rwa [show i + (k + 1) = i + 1 + k by omega] at this
    rw [Do.loop]
    simp only [h0, Bool.false_eq_true, if_false]
    rw [ih (i + 1) _ hrest, range_succ_map_shift]
    by_cases hl : left = 0
    · subst hl; simp
    · have e1 : i + 1 + left - 1 = i + (left + 1) - 1 := by omega
      simp [hl, e1, Nat.add_assoc, Nat.add_comm 1 left]

/-- When attempt `i + j` is the first one at which the loop stops, the loop makes `j + 1`
invocations and `j` sleeps. -/
theorem loop_stop_at (c : Client) (tr : Nat → Reply) :
    ∀ (j left i : Nat) (acc : DoResult), j < left → stops (tr (i + j)) = true →
      (∀ k, k < j → stops (tr (i + k)) = false) →
      Do.loop c tr left i acc =
        { resp := (tr (i + j)).resp
          err := (tr (i + j)).err
          calls := acc.calls + (j + 1)
          sleeps := acc.sleeps ++ (List.range j).map (fun k => c.strategy (i + k)) } := by
  intro j
  induction j with
  | zero =>
    intro left i acc hl hj _
    obtain ⟨left, rfl⟩ : ∃ l, left = l + 1 := ⟨left - 1, by omega⟩
    rw [Do.loop]
    simp only [Nat.add_zero] at hj
    simp [hj]
  | succ j ih =>
    intro left i acc hl hj h
    obtain ⟨left, rfl⟩ : ∃ l, left = l + 1 := ⟨left - 1, by omega⟩
    have h0 : stops (tr i) = false := by simpa using h 0 (Nat.succ_pos j)
    have hrest : ∀ k, k < j → stops (tr (i + 1 + k)) = false := by
      intro k hk
      have := h (k + 1) (by omega)
      rwa [show i + (k + 1) = i + 1 + k by omega] at this
    have hj1 : stops (tr (i + 1 + j)) = true := by
      rwa [show i + (j + 1) = i + 1 + j by omega] at hj
    rw [Do.loop]
    simp only [h0, Bool.false_eq_true, if_false]
    rw [ih left (i + 1) _ (by omega) hj1 hrest, range_succ_map_shift]
    simp [show i + 1 + j = i + (j + 1) by omega, Nat.add_assoc, Nat.add_comm 1 (j + 1)]

theorem Do_of_readable (c : Client) (body : Body) (tr : Nat → Reply)
    (hb : body = .nilBody ∨ body = .readable) :
    Do c body tr = Do.loop c tr c.maxRetries.toNat 0
      { resp := none, err := none, calls := 0, sleeps := [] } := by
  rcases hb with rfl | rfl <;> rfl

/-- The two ways `Do` ends: at the first attempt `s < m` at which the loop stops, or after
`m` failed attempts. -/
theorem Do_cases (c : Client) (body : Body) (tr : Nat → Reply) (m : Nat)
    (hc : c.maxRetries = m) (hb : body = .nilBody ∨ body = .readable) :
    (∃ s, s < m ∧ stops (tr s) = true ∧ (∀ k, k < s → stops (tr k) = false) ∧
      Do c body tr = { resp := (tr s).resp, err := (tr s).err, calls := s + 1,
                       sleeps := (List.range s).map c.strategy }) ∨
    ((∀ k, k < m → stops (tr k) = false) ∧
      Do c body tr = { resp := if m = 0 then none else (tr (m - 1)).resp
                       err := if m = 0 then none else (tr (m - 1)).err
                       calls := m
                       sleeps := (List.range m).map c.strategy }) := by
  have hm : c.maxRetries.toNat = m := by rw [hc]; exact Int.toNat_ofNat m
  rw [Do_of_readable c body tr hb, hm]
  by_cases h : ∃ s, s < m ∧ stops (tr s) = true
  · left
    classical
    refine ⟨Nat.find h, (Nat.find_spec h).1, (Nat.find_spec h).2, ?_, ?_⟩
    · intro k hk
      have := Nat.find_min h hk
      have hkm : k < m := lt_trans hk (Nat.find_spec h).1
      simpa [hkm] using this
    · have := loop_stop_at c tr (Nat.find h) m 0
        { resp := none, err := none, calls := 0, sleeps := [] } (Nat.find_spec h).1
        (by simpa using (Nat.find_spec h).2)
        (by
          intro k hk
          have := Nat.find_min h hk
          have hkm : k < m := lt_trans hk (Nat.find_spec h).1
          simpa [hkm] using this)
      simpa using this
  · right
    have hall : ∀ k, k < m → stops (tr k) = false := by
      intro k hk
      by_contra hne
      exact h ⟨k, hk, by simpa using hne⟩
    refine ⟨hall, ?_⟩
    have := loop_all_fail c tr m 0 { resp := none, err := none, calls := 0, sleeps := [] }
      (by simpa using hall)
    simpa using this

/-! ## The claims on `retry.Client.Do` -/

/-- C12, counterexample: `context.DeadlineExceeded` does not match `context.Canceled` and is
classified as a recoverable failure; `post` on a closed breaker with three counted failures
counts a fourth one for it, and `retry.Client.Do` with three attempts sleeps and invokes the
transport a second time after it. -/
theorem deadline_exceeded_counts_as_failure :
    classify (some .DeadlineExceeded) 0 = .RecoverableFailure ∧
    classify (some .DeadlineExceeded) 0 ≠ .Cancelled ∧
    (∃ c₁, post demoBackOff
        { state := .closed, nfail := 3, threshold := 10, timeout := 0, cooldown := 0,
          openBackOff := 0 } (some .DeadlineExceeded) 0 7 = some c₁ ∧ c₁.nfail = 4) ∧
    Do { maxRetries := 3, strategy := Linear.BackOff (5 * Millisecond) } .nilBody
        (script [.fail none .DeadlineExceeded] (status 200)) =
      { resp := some { StatusCode := 200 }, err := none, calls := 2,
        sleeps := [Linear.BackOff (5 * Millisecond) 0] } :=
  ⟨by decide, by decide, ⟨_, rfl, rfl⟩, by decide⟩

/-- C12, amended: an attempt that ends in `context.DeadlineExceeded` is classified as a
recoverable failure, not as a cancellation: `post` of the inline breaker (state not open,
counter below the largest `uint64`) increments `nfail` by 1 for it, and `retry.Client.Do`,
when attempt `j` ends in it after `j` failed attempts and more attempts remain, sleeps
`BackOff(j)` and invokes the transport again. -/
theorem deadline_exceeded_is_retried {β : Type} (B : BackOff β) (b : circuit2.Client β)
    (statusCode now : Int) (c : Client) (body : Body) (tr : Nat → Reply)
    (resp : Option Response) (m j : Nat)
    (hs : b.state ≠ .open_) (hn : b.nfail + 1 < 2 ^ 64)
    (hc : c.maxRetries = m) (hb : body = .nilBody ∨ body = .readable) (hj : j + 1 < m)
    (hfail : ∀ i, i < j → (tr i).outcome = .RecoverableFailure)
    (hd : tr j = .fail resp .DeadlineExceeded) :
    classify (some .DeadlineExceeded) statusCode = .RecoverableFailure ∧
    (∃ b₁, post B b (some .DeadlineExceeded) statusCode now = some b₁ ∧
      b₁.nfail = b.nfail + 1) ∧
    j + 2 ≤ (Do c body tr).calls ∧
    (Do c body tr).sleeps[j]? = some (c.strategy j) := by
  have hcl : classify (some .DeadlineExceeded) statusCode = .RecoverableFailure := by
    simp [classify, isCanceled]
  have hstop : ∀ i, i ≤ j → stops (tr i) = false := by
    intro i hi
    rw [stops_eq_false_iff]
    rcases Nat.lt_or_eq_of_le hi with h | h
    · exact hfail i h
    · rw [h, hd]; simp [Reply.outcome, classify, Reply.err, isCanceled]
  refine ⟨hcl, ?_, ?_⟩
  · obtain ⟨b₁, hb₁, hnf⟩ :=
      circuit2.post_failure_nfail B b (some .DeadlineExceeded) statusCode now hs hcl
    exact ⟨b₁, hb₁, by rw [hnf, Nat.mod_eq_of_lt hn]⟩
  · rcases Do_cases c body tr m hc hb with ⟨s, hsm, hs1, _, hDo⟩ | ⟨_, hDo⟩
    · have hjs : j < s := by
        by_contra hle
        have := hstop s (by omega)
        rw [hs1] at this
        exact absurd this (by simp)
      rw [hDo]
      refine ⟨by simp; omega, ?_⟩
      simp [List.getElem?_map, List.getElem?_range hjs]
    · rw [hDo]
      refine ⟨by simp; omega, ?_⟩
      simp [List.getElem?_map, List.getElem?_range (show j < m by omega)]

/-- Witness of C12 (amended): a deadline error at the first of three attempts, and on a
closed breaker with three counted failures. -/
theorem deadline_exceeded_is_retried_witness :
    classify (some .DeadlineExceeded) 0 = .RecoverableFailure ∧
    (∃ b₁, post demoBackOff
        { state := .closed, nfail := 3, threshold := 10, timeout := 0, cooldown := 0,
          openBackOff := 0 } (some .DeadlineExceeded) 0 7 = some b₁ ∧ b₁.nfail = 3 + 1) ∧
    0 + 2 ≤ (Do { maxRetries := ((3 : Nat) : Int), strategy := Linear.BackOff 5 } .nilBody
      (script [.fail none .DeadlineExceeded] (status 200))).calls ∧
    (Do { maxRetries := ((3 : Nat) : Int), strategy := Linear.BackOff 5 } .nilBody
      (script [.fail none .DeadlineExceeded] (status 200))).sleeps[0]? =
        some (Linear.BackOff 5 0) :=
  deadline_exceeded_is_retried demoBackOff
    { state := .closed, nfail := 3, threshold := 10, timeout := 0, cooldown := 0,
      openBackOff := 0 } 0 7
    { maxRetries := ((3 : Nat) : Int), strategy := Linear.BackOff 5 } .nilBody
    (script [.fail none .DeadlineExceeded] (status 200)) none 3 0
    (by decide) (by decide) rfl (Or.inl rfl) (by decide) (by intro i hi; omega) rfl

/-- C13: for `retry.Client.Do` with `maxRetries = m ≥ 1` and a body that is nil or readable:
(1) if attempt `j` is the first whose outcome is a success or a cancellation, the transport
is invoked exactly `min m (j + 1)` times and `Do` returns the response and error of the last
invocation; (2) hence `k < m` failures followed by a success give that success after exactly
`k + 1` invocations; (3) a transport that always fails is invoked exactly `m` times and `Do`
returns the last failure. Attempt `i + 1` is issued by the loop only after the reply to
attempt `i` has been classified. -/
theorem Do_invocation_count (c : Client) (body : Body) (tr : Nat → Reply) (m : Nat)
    (hm : 1 ≤ m) (hc : c.maxRetries = m) (hb : body = .nilBody ∨ body = .readable) :
    (∀ j, ((tr j).outcome = .Success ∨ (tr j).outcome = .Cancelled) →
      (∀ i, i < j → (tr i).outcome = .RecoverableFailure) →
      (Do c body tr).calls = min m (j + 1) ∧
      (Do c body tr).resp = (tr (min m (j + 1) - 1)).resp ∧
      (Do c body tr).err = (tr (min m (j + 1) - 1)).err) ∧
    (∀ k, k < m → (∀ i, i < k → (tr i).outcome = .RecoverableFailure) →
      (tr k).outcome = .Success →
      (Do c body tr).calls = k + 1 ∧ (Do c body tr).resp = (tr k).resp ∧
      (Do c body tr).err = none) ∧
    ((∀ i, (tr i).outcome = .RecoverableFailure) →
      (Do c body tr).calls = m ∧ (Do c body tr).resp = (tr (m - 1)).resp ∧
      (Do c body tr).err = (tr (m - 1)).err ∧
      (tr (m - 1)).outcome = .RecoverableFailure) := by
  have hm0 : m ≠ 0 := by omega
  have key : ∀ j, stops (tr j) = true → (∀ i, i < j → stops (tr i) = false) →
      (Do c body tr).calls = min m (j + 1) ∧
      (Do c body tr).resp = (tr (min m (j + 1) - 1)).resp ∧
      (Do c body tr).err = (tr (min m (j + 1) - 1)).err := by
    intro j hj hlt
    rcases Do_cases c body tr m hc hb with ⟨s, hsm, hs1, hs2, hDo⟩ | ⟨hall, hDo⟩
    · have hsj : s = j := by
        rcases Nat.lt_trichotomy s j with h | h | h
        · have := hlt s h; rw [hs1] at this; exact absurd this (by simp)
        · exact h
        · have := hs2 j h; rw [hj] at this; exact absurd this (by simp)
      subst hsj
      have hmin : min m (s + 1) = s + 1 := by omega
      rw [hDo, hmin]
      simp
    · have hmj : m ≤ j := by
        by_contra hlt2
        have := hall j (by omega)
        rw [hj] at this
        exact absurd this (by simp)
      have hmin : min m (j + 1) = m := by omega
      rw [hDo, hmin]
      simp [hm0]
  refine ⟨?_, ?_, ?_⟩
  · intro j hj hlt
    refine key j ?_ ?_
    · rw [stops_iff]
      rcases hj with h | h <;> simp [h]
    · intro i hi
      rw [stops_eq_false_iff]
      exact hlt i hi
  · intro k hk hlt hsucc
    have hstop : stops (tr k) = true := by rw [stops_iff]; simp [hsucc]
    have := key k hstop (fun i hi => (stops_eq_false_iff _).mpr (hlt i hi))
    have hmin : min m (k + 1) = k + 1 := by omega
    rw [hmin] at this
    refine ⟨this.1, by simpa using this.2.1, ?_⟩
    have herr : (tr k).err = none := by
      cases hr : tr k with
      | ok r => rfl
      | fail r e =>
        rw [hr] at hsucc
        cases he : isCanceled e <;> simp [Reply.outcome, classify, Reply.err, he] at hsucc
    rw [this.2.2]
    simpa using herr
  · intro hall
    rcases Do_cases c body tr m hc hb with ⟨s, _, hs1, _, _⟩ | ⟨_, hDo⟩
    · have := (stops_eq_false_iff _).mpr (hall s)
      rw [hs1] at this
      exact absurd this (by simp)
    · rw [hDo]
      simp [hm0, hall]

/-- Witness of C13: three attempts, two 503 responses and then a 200 response. -/
theorem Do_invocation_count_witness :
    (Do { maxRetries := ((3 : Nat) : Int), strategy := Linear.BackOff 5 } .nilBody
        (script [status 503, status 503] (status 200))).calls = 2 + 1 ∧
    (Do { maxRetries := ((3 : Nat) : Int), strategy := Linear.BackOff 5 } .nilBody
        (script [status 503, status 503] (status 200))).resp =
      (script [status 503, status 503] (status 200) 2).resp ∧
    (Do { maxRetries := ((3 : Nat) : Int), strategy := Linear.BackOff 5 } .nilBody
        (script [status 503, status 503] (status 200))).err = none :=
  (Do_invocation_count { maxRetries := ((3 : Nat) : Int), strategy := Linear.BackOff 5 }
    .nilBody (script [status 503, status 503] (status 200)) 3 (by decide) rfl
    (Or.inl rfl)).2.1 2 (by decide) (by decide) (by decide)

/-- C14, evaluation of the code: with a transport that always answers 503, `Do` with three
attempts and a linear strategy sleeps three times, `BackOff(0)`, `BackOff(1)` and
`BackOff(2)`, the last one after the final attempt; with a single attempt and a constant
strategy of 5 ms it sleeps `BackOff(0)`, 5 ms, after that attempt. (For every strategy and
every bound the sleeps of an always-failing execution are given by `Do_cases`.) -/
theorem sleeps_after_final_attempt :
    Do { maxRetries := 3, strategy := Linear.BackOff (5 * Millisecond) } .nilBody
        (fun _ => status 503) =
      { resp := some { StatusCode := 503 }, err := none, calls := 3,
        sleeps := [Linear.BackOff (5 * Millisecond) 0, Linear.BackOff (5 * Millisecond) 1,
                   Linear.BackOff (5 * Millisecond) 2] } ∧
    Do { maxRetries := 1, strategy := Constant.BackOff (5 * Millisecond) } .nilBody
        (fun _ => status 503) =
      { resp := some { StatusCode := 503 }, err := none, calls := 1,
        sleeps := [Constant.BackOff (5 * Millisecond) 0] } ∧
    Constant.BackOff (5 * Millisecond) 0 = 5 * Millisecond :=
  ⟨by decide, by decide, rfl⟩

end retry

namespace retry

/-! ## The back-off strategies -/

theorem wrap64_of_range (x : Int) (hlo : -2 ^ 63 ≤ x) (hhi : x < 2 ^ 63) : wrap64 x = x := by
  unfold wrap64
  omega

theorem wrap64_emod (x : Int) : wrap64 x % 2 ^ 64 = x % 2 ^ 64 := by
  unfold wrap64
  omega

theorem wrap64_congr (x y : Int) (h : x % 2 ^ 64 = y % 2 ^ 64) : wrap64 x = wrap64 y := by
  unfold wrap64
  omega

theorem wrap64_mul_wrap64 (a q : Int) : wrap64 (wrap64 a * q) = wrap64 (a * q) := by
  apply wrap64_congr
  have h : wrap64 a ≡ a [ZMOD 2 ^ 64] := wrap64_emod a
  exact h.mul_right q

/-- The value of `Exponential.BackOff` for every input: `2 ^ n * q` reduced to `int64`. -/
theorem Exponential_BackOff_eq_wrap (q : Int) (n : Nat) :
    Exponential.BackOff q n = wrap64 (2 ^ n * q) := by
  unfold Exponential.BackOff shl64
  rw [wrap64_mul_wrap64, one_mul]

/-- C15, counterexample: with a quantum of one nanosecond `Exponential.BackOff` is 0 at
`n = 64` and `-2 ^ 63` at `n = 63`, not `2 ^ 64` and `2 ^ 63`. -/
theorem exponential_backoff_overflows :
    Exponential.BackOff 1 64 = 0 ∧ Exponential.BackOff 1 64 ≠ 2 ^ 64 * 1 ∧
    Exponential.BackOff 1 63 = -2 ^ 63 ∧ Exponential.BackOff 1 63 ≠ 2 ^ 63 * 1 := by
  refine ⟨by decide, by decide, by decide, by decide⟩

/-- C15, amended: for every attempt index `n` and quantum `q` such that `2 ^ n * q` is an
`int64` value, `Exponential.BackOff` equals `2 ^ n * q`. (For every `n` and `q` it is
`2 ^ n * q` reduced to `int64` by wrap-around, see `Exponential_BackOff_eq_wrap`.) -/
theorem exponential_backoff_in_range (q : Int) (n : Nat) (hlo : -2 ^ 63 ≤ 2 ^ n * q)
    (hhi : 2 ^ n * q < 2 ^ 63) : Exponential.BackOff q n = 2 ^ n * q := by
  rw [Exponential_BackOff_eq_wrap, wrap64_of_range _ hlo hhi]

/-- Witness of C15 (amended): a quantum of one second at `n = 20`. -/
theorem exponential_backoff_in_range_witness :
    Exponential.BackOff Second 20 = 2 ^ 20 * Second :=
  exponential_backoff_in_range Second 20 (by decide) (by decide)

/-- C16, counterexample: with a quantum of `2 ^ 62` nanoseconds `Linear.BackOff` is 0 at
`n = 4`, not `4 * 2 ^ 62`. -/
theorem linear_backoff_overflows :
    Linear.BackOff (2 ^ 62) 4 = 0 ∧ Linear.BackOff (2 ^ 62) 4 ≠ 4 * 2 ^ 62 := by
  refine ⟨by decide, by decide⟩

/-- C16, amended: for every attempt index `n` and quantum `q` such that `n * q` is an `int64`
value, `Linear.BackOff` equals `n * q`; and it is zero at `n = 0` for every quantum. -/
theorem linear_backoff_in_range (q : Int) (n : Nat) (hlo : -2 ^ 63 ≤ (n : Int) * q)
    (hhi : (n : Int) * q < 2 ^ 63) :
    Linear.BackOff q n = (n : Int) * q ∧ ∀ q₀ : Int, Linear.BackOff q₀ 0 = 0 := by
  refine ⟨wrap64_of_range _ hlo hhi, ?_⟩
  intro q₀
  unfold Linear.BackOff
  simp [wrap64]

/-- Witness of C16 (amended): a quantum of one second at `n = 20`. -/
theorem linear_backoff_in_range_witness :
    Linear.BackOff Second 20 = ((20 : Nat) : Int) * Second ∧
      ∀ q₀ : Int, Linear.BackOff q₀ 0 = 0 :=
  linear_backoff_in_range Second 20 (by decide) (by decide)

/-- The value of `jitter` on a base duration `d ≥ 0` with `d + d / 3` in the `int64` range:
the draw, reduced to `[0, 2 * (d / 3)]`, shifted by `d - d / 3`. -/
theorem jitter_eq (d : Int) (u : Nat) (hd0 : 0 ≤ d) (hd : d + d / 3 < 2 ^ 63) :
    jitter d u = some (d - d / 3 + (u : Int) % (2 * (d / 3) + 1)) := by
  have hmj : Int.tdiv d 3 = d / 3 := Int.tdiv_eq_ediv hd0 (by decide)
  have hpos : 0 < 2 * (d / 3) + 1 := by omega
  have hr0 : 0 ≤ (u : Int) % (2 * (d / 3) + 1) := Int.emod_nonneg _ (by omega)
  have hr1 : (u : Int) % (2 * (d / 3) + 1) < 2 * (d / 3) + 1 := Int.emod_lt_of_pos _ hpos
  unfold jitter Int63n
  simp only [hmj]
  rw [wrap64_of_range (2 * (d / 3)) (by omega) (by omega),
    wrap64_of_range (2 * (d / 3) + 1) (by omega) (by omega), if_neg (by omega)]
  simp only []
  rw [wrap64_of_range ((u : Int) % (2 * (d / 3) + 1) - d / 3) (by omega) (by omega),
    wrap64_of_range _ (by omega) (by omega)]
  congr 1
  omega

/-- C17, counterexample: for the base duration `2 ^ 63 - 1` and the largest draw, `jitter`
returns a negative value, below `d - d / 3`. -/
theorem jitter_overflows :
    jitter (2 ^ 63 - 1) 6148914691236517204 = some (-6148914691236517207) ∧
    (0 : Int) ≤ 2 ^ 63 - 1 ∧
    (-6148914691236517207 : Int) < 0 ∧
    (-6148914691236517207 : Int) < (2 ^ 63 - 1) - (2 ^ 63 - 1) / 3 := by
  refine ⟨by decide, by decide, by decide, by decide⟩

/-- C17, amended: for every base duration `d ≥ 0` with `d + d / 3` in the `int64` range and
every value the random generator can return, `jitter d` returns a value of the closed
interval `[d - d / 3, d + d / 3]` (integer division), hence of `[2 * d / 3, 4 * d / 3]`, and
never a negative one; both endpoints of the interval are returned for some draw. -/
theorem jitter_in_range (d : Int) (hd0 : 0 ≤ d) (hd : d + d / 3 < 2 ^ 63) :
    (∀ u : Nat, ∃ r, jitter d u = some r ∧ d - d / 3 ≤ r ∧ r ≤ d + d / 3 ∧
      2 * d / 3 ≤ r ∧ r ≤ 4 * d / 3 ∧ 0 ≤ r) ∧
    (∃ u : Nat, jitter d u = some (d - d / 3)) ∧
    (∃ u : Nat, jitter d u = some (d + d / 3)) := by
  have hpos : 0 < 2 * (d / 3) + 1 := by omega
  refine ⟨?_, ⟨0, ?_⟩, ⟨(2 * (d / 3)).toNat, ?_⟩⟩
  · intro u
    have hr0 : 0 ≤ (u : Int) % (2 * (d / 3) + 1) := Int.emod_nonneg _ (by omega)
    have hr1 : (u : Int) % (2 * (d / 3) + 1) < 2 * (d / 3) + 1 := Int.emod_lt_of_pos _ hpos
    refine ⟨_, jitter_eq d u hd0 hd, ?_, ?_, ?_, ?_, ?_⟩ <;> omega
  · rw [jitter_eq d 0 hd0 hd]
    simp
  · rw [jitter_eq d _ hd0 hd, Int.toNat_of_nonneg (by omega),
      Int.emod_eq_of_lt (by omega) (by omega)]
    congr 1
    omega

/-- Witness of C17 (amended): the base duration of one second. -/
theorem jitter_in_range_witness :
    (∀ u : Nat, ∃ r, jitter Second u = some r ∧ Second - Second / 3 ≤ r ∧
      r ≤ Second + Second / 3 ∧ 2 * Second / 3 ≤ r ∧ r ≤ 4 * Second / 3 ∧ 0 ≤ r) ∧
    (∃ u : Nat, jitter Second u = some (Second - Second / 3)) ∧
    (∃ u : Nat, jitter Second u = some (Second + Second / 3)) :=
  jitter_in_range Second (by decide) (by decide)

/-- C18, evaluation of the code: with a quantum of one second and the largest draw,
`JitteredConstant.BackOff(0)` returns 1333333333 ns, above the 1333 ms of the table, and
`JitteredLinear.BackOff(2)` returns 2666666666 ns, above the 2666 ms of the table;
`JitteredLinear.BackOff(0)` is 0 for every draw. -/
theorem jittered_backoff_above_table :
    JitteredConstant.BackOff Second 0 666666666 = some 1333333333 ∧
    1333 * Millisecond < (1333333333 : Int) ∧
    JitteredLinear.BackOff Second 2 1333333332 = some 2666666666 ∧
    2666 * Millisecond < (2666666666 : Int) ∧
    ∀ u : Nat, JitteredLinear.BackOff Second 0 u = some 0 := by
  refine ⟨by decide, by decide, by decide, by decide, ?_⟩
  intro u
  have h : Linear.BackOff Second 0 = 0 := by decide
  unfold JitteredLinear.BackOff
  rw [h, jitter_eq 0 u (le_refl 0) (by decide)]
  simp

end retry

namespace sgerrgroup

open sg

/-! ## The scatter-gather clients -/

/-- Attempts that all end in a `*url.Error` send nothing on `data` and return only errors
that `errors.As` matches. -/
theorem failed_attempts (l : List Attempt)
    (h : ∀ a ∈ l, ∃ e, a = .fail e ∧ e.asURLError = true) :
    l.filterMap Attempt.sent = [] ∧ ∀ e ∈ l.filterMap Attempt.error, e.asURLError = true := by
  induction l with
  | nil => simp
  | cons a l ih =>
    obtain ⟨e, rfl, he⟩ := h a (List.mem_cons_self a l)
    obtain ⟨ih1, ih2⟩ := ih (fun b hb => h b (List.mem_cons_of_mem _ hb))
    refine ⟨by simpa [Attempt.sent] using ih1, ?_⟩
    intro e₁ he₁
    simp only [List.filterMap_cons, Attempt.error, List.mem_cons] at he₁
    rcases he₁ with rfl | he₁
    · exact he
    · exact ih2 e₁ he₁

/-- When the errors returned are all `*url.Error` values, `Do` goes on to the receive. -/
theorem Do_eq_receive (outcomes : List Attempt)
    (h : ∀ e ∈ outcomes.filterMap Attempt.error, e.asURLError = true) :
    Do outcomes = receive (outcomes.filterMap Attempt.sent) := by
  unfold Do
  cases hl : outcomes.filterMap Attempt.error with
  | nil => rfl
  | cons e es =>
    have he : e.asURLError = true := h e (by rw [hl]; exact List.mem_cons_self e es)
    simp [he]

/-- When every attempt ends in a `*url.Error`, whatever their number and order, `Do` of
`sgerrgroup` never returns: it waits on `data` for ever. -/
theorem all_fail_blocked (outcomes : List Attempt)
    (h : ∀ a ∈ outcomes, ∃ e, a = .fail e ∧ e.asURLError = true) :
    Do outcomes = .blocked := by
  obtain ⟨h1, h2⟩ := failed_attempts outcomes h
  rw [Do_eq_receive outcomes h2, h1]
  rfl

/-- With exactly one successful attempt, the others ending in a `*url.Error`, `Do` of
`sgerrgroup` returns the response of that attempt with a nil error, wherever the attempt
stands in the order of completion. -/
theorem one_success_returned (before after : List Attempt) (resp : circuit2.Response)
    (h : ∀ a ∈ before ++ after, ∃ e, a = .fail e ∧ e.asURLError = true) :
    Do (before ++ .ok resp :: after) = .returned (some resp) none := by
  obtain ⟨b1, b2⟩ := failed_attempts before (fun a ha => h a (List.mem_append_left _ ha))
  obtain ⟨a1, a2⟩ := failed_attempts after (fun a ha => h a (List.mem_append_right _ ha))
  have herr : ∀ e ∈ (before ++ .ok resp :: after).filterMap Attempt.error,
      e.asURLError = true := by
    intro e he
    simp only [List.filterMap_append, List.filterMap_cons, Attempt.error,
      List.mem_append] at he
    rcases he with he | he
    · exact b2 e he
    · exact a2 e he
  rw [Do_eq_receive _ herr]
  simp [List.filterMap_append, Attempt.sent, b1, a1, receive]

/-- C19, evaluation of the code: when the only attempt, or each of three attempts, ends in a
transport error (a `*url.Error` that is not a cancellation), `Do` of `sgerrgroup` does not
return `(nil, err)`: it waits on `data` for ever. -/
theorem all_attempts_fail_blocks :
    Do [.fail { asURLError := true, isCanceled := false, tag := 0 }] = .blocked ∧
    Do [.fail { asURLError := true, isCanceled := false, tag := 0 },
        .fail { asURLError := true, isCanceled := false, tag := 1 },
        .fail { asURLError := true, isCanceled := false, tag := 2 }] = .blocked := by
  refine ⟨by decide, by decide⟩

end sgerrgroup

namespace sgctx

open sg

/-- C20, evaluation of the code: with two attempts of which the first to complete fails with
a transport error and the second succeeds, `Do` of `sgctx` returns `(nil, err)` when its
`select` runs after the first send, whatever the choice of `select`; it returns the response
only when both sends are made before the `select` and the choice falls on `data`. -/
theorem first_failure_wins :
    (∀ coin : Bool,
      Do [.fail { asURLError := true, isCanceled := false, tag := 0 },
          .ok { StatusCode := 200 }] 0 coin =
        .returned none (some { asURLError := true, isCanceled := false, tag := 0 })) ∧
    Do [.fail { asURLError := true, isCanceled := false, tag := 0 },
        .ok { StatusCode := 200 }] 1 false =
      .returned none (some { asURLError := true, isCanceled := false, tag := 0 }) ∧
    Do [.fail { asURLError := true, isCanceled := false, tag := 0 },
        .ok { StatusCode := 200 }] 1 true = .returned (some { StatusCode := 200 }) none := by
  refine ⟨by decide, by decide, by decide⟩

end sgctx



namespace retry

open circuit2

/-- C29: `retry.Client.Do` with `maxRetries ≤ 0` and a body that is nil or readable never
invokes the transport, never sleeps, and returns a nil response with a nil error. -/
theorem Do_without_attempts (c : Client) (body : Body) (tr : Nat → Reply)
    (hm : c.maxRetries ≤ 0) (hb : body = .nilBody ∨ body = .readable) :
    Do c body tr = { resp := none, err := none, calls := 0, sleeps := [] } := by
  have h0 : c.maxRetries.toNat = 0 := by omega
  rw [Do_of_readable c body tr hb, h0]
  rfl

/-- Witness of C29: `maxRetries = -1`, a readable body and a transport that would answer
200. -/
theorem Do_without_attempts_witness :
    Do { maxRetries := -1, strategy := Linear.BackOff Second } .readable
        (fun _ => status 200) =
      { resp := none, err := none, calls := 0, sleeps := [] } :=
  Do_without_attempts { maxRetries := -1, strategy := Linear.BackOff Second } .readable
    (fun _ => status 200) (by decide) (Or.inr rfl)

end retry

namespace fanout

/-- C23, evaluation of the code: the caller's request carries a context with the
cancellation scope 1, and that scope fires. The request that `Do` of `hedged`, `sgerrgroup`
and `sgctx` hands to the transport, made with the new scope 0 on `context.Background()`, is
not cancelled, although the caller's context is; the request that the sibling `sg` hands to
the transport is the caller's and is cancelled. -/
theorem caller_cancellation_dropped :
    callerRequest.ctx.cancelled (fun k => k == 1) = true ∧
    (reqCtx callerRequest 0).ctx = WithCancel Background 0 ∧
    (reqCtx callerRequest 0).ctx.cancelled (fun k => k == 1) = false ∧
    (sgRequest callerRequest).ctx.cancelled (fun k => k == 1) = true := by
  refine ⟨by decide, by decide, by decide, by decide⟩

end fanout

namespace circuit

open circuit2

/-- A tick in state open moves to half-open; a tick in state half-open moves to closed when
`nfail = 0` and to open otherwise. The counter `nfail` is the number of failures since the
breaker was made: no tick and no `Do` call resets it. -/
theorem tick_state (b : Breaker) :
    (b.state = .open_ → (tick b).state = .halfOpen) ∧
    (b.state = .halfOpen → (tick b).state = if b.nfail = 0 then .closed else .open_) ∧
    (tick b).nfail = b.nfail := by
  refine ⟨?_, ?_, ?_⟩
  · intro h; simp [tick, h]
  · intro h
    by_cases hn : b.nfail = 0 <;> simp [tick, h, hn]
  · unfold tick
    cases b.state <;> simp <;> split <;> rfl

/-- C24, evaluation of the code: threshold 1; one 503 response is counted, a tick opens the
breaker, a second tick makes it half-open; no failure is recorded after that, and the third
tick moves it to open, not to closed, because `nfail` is still 1. -/
theorem halfOpen_tick_reopens :
    run (NewBreaker 1) [.call (some { StatusCode := 503 }) none, .tick, .tick] =
      some { state := .halfOpen, nfail := 1, threshold := 1, done := false } ∧
    run (NewBreaker 1) [.call (some { StatusCode := 503 }) none, .tick, .tick, .tick] =
      some { state := .open_, nfail := 1, threshold := 1, done := false } := by
  refine ⟨by decide, by decide⟩

/-- C25, evaluation of the code: on a closed breaker, a task that returns a nil response
with `context.Canceled` makes `Do` panic (nil dereference in `resp.StatusCode`); with a
response of status 200 and the same error `Do` returns the pair and leaves `nfail`
unchanged. -/
theorem Do_cancelled_nil_response_panics :
    (NewBreaker 10).state ≠ .open_ ∧
    Do (NewBreaker 10) none (some .Canceled) = none ∧
    Do (NewBreaker 10) (some { StatusCode := 200 }) (some .Canceled) =
      some { resp := some { StatusCode := 200 }, err := some .Canceled,
             breaker := NewBreaker 10, calls := 1 } := by
  refine ⟨by decide, by decide, by decide⟩

/-- C26, counterexample: the first `Stop` on a new breaker returns, the second one
panics. -/
theorem second_Stop_panics :
    ∃ b, Stop (NewBreaker 10) = some b ∧ Stop b = none :=
  ⟨_, rfl, rfl⟩

/-- C26, amended: `Stop` may be called once: on a breaker whose channel `done` is open it
closes the channel and changes nothing else, and every later call of `Stop` panics (close of
a closed channel). -/
theorem Stop_once (b : Breaker) (h : b.done = false) :
    ∃ b₁, Stop b = some b₁ ∧ b₁.done = true ∧ b₁.state = b.state ∧ b₁.nfail = b.nfail ∧
      b₁.threshold = b.threshold ∧ Stop b₁ = none := by
  refine ⟨{ b with done := true }, ?_, rfl, rfl, rfl, rfl, ?_⟩
  · simp [Stop, h]
  · simp [Stop]

/-- Witness of C26 (amended): a new breaker. -/
theorem Stop_once_witness :
    ∃ b₁, Stop (NewBreaker 10) = some b₁ ∧ b₁.done = true ∧
      b₁.state = (NewBreaker 10).state ∧ b₁.nfail = (NewBreaker 10).nfail ∧
      b₁.threshold = (NewBreaker 10).threshold ∧ Stop b₁ = none :=
  Stop_once (NewBreaker 10) rfl

end circuit

namespace threader

/-- The status each kind of validation error leaves when the handler returns, and a handler
run on a validation error stores nothing. -/
theorem validation_error_status (err : validate.Error) :
    (writeValidationError err .fresh).sent =
      match err with
      | .ErrJSONSyntax => 200
      | .ErrInvalidValue => 200
      | .ErrUnknownField => 200
      | .ErrEmpty => 400
      | .ErrSzExceeded => 413
      | .ErrGeneric => 500
      | .ErrMultipleObjects => 200 := by
  cases err <;> rfl

theorem newThread_validation_error {σ τ : Type} (err : validate.Error)
    (rest : τ → ResponseWriter × σ → ResponseWriter × σ) (store : σ) :
    newThread "application/json" (.error err) rest store =
      (writeValidationError err .fresh, store) := by
  simp [newThread]

theorem newMessage_validation_error {σ τ : Type} (err : validate.Error)
    (rest : τ → ResponseWriter × σ → ResponseWriter × σ) (store : σ) :
    newMessage "application/json" (.error err) rest store =
      (writeValidationError err .fresh, store) := by
  simp [newMessage]

end threader

namespace archive

open threader

/-- C30, evaluation of the code. The body `}` makes the first `Decode` return a syntax
error, which `validate.JSON` turns into `ErrJSONSyntax`; `newScore`, `newThread` and
`newMessage` then return without writing a header, so the client receives the status 200.
The same holds for an invalid value (body `{"votes":"x"}`), an unknown field (body
`{"x":1}`) and two objects (body `{} {}`, where the second `Decode` does not return
`io.EOF`). Nothing is stored. For comparison, the truncated body `{` gives `ErrGeneric` and
the status 500. (The store of the broker handlers is a list here, and the rest of the handler
adds to it.) -/
theorem validation_error_answers_200 :
    (validate.JSON (.error validate.syntaxError) true : Except validate.Error model.Score) =
      .error .ErrJSONSyntax ∧
    newScore idle calm "application/json" (validate.JSON (.error validate.syntaxError) true) =
      some (.fresh, idle) ∧
    ResponseWriter.fresh.sent = 200 ∧
    newScore idle calm "application/json"
        (validate.JSON (.error validate.unmarshalTypeError) true) = some (.fresh, idle) ∧
    newScore idle calm "application/json"
        (validate.JSON (.error validate.unknownFieldError) true) = some (.fresh, idle) ∧
    newScore idle calm "application/json"
        (validate.JSON (.ok { ThreadID := "", MessageID := "", Votes := 0 }) false) =
      some (.fresh, idle) ∧
    newThread "application/json"
        (validate.JSON (.error validate.syntaxError) true : Except validate.Error String)
        (fun (t : String) (p : ResponseWriter × List String) => (httpError p.1 201, t :: p.2))
        [] = (.fresh, []) ∧
    newMessage "application/json"
        (validate.JSON (.error validate.syntaxError) true : Except validate.Error String)
        (fun (m : String) (p : ResponseWriter × List String) => (httpError p.1 201, m :: p.2))
        [] = (.fresh, []) ∧
    newScore idle calm "application/json"
        (validate.JSON (.error validate.unexpectedEOF) true) =
      some ({ status := some 500 }, idle) := by
  refine ⟨rfl, by decide, by decide, by decide, by decide, by decide, ?_, ?_, by decide⟩
  · exact newThread_validation_error _ _ _
  · exact newMessage_validation_error _ _ _

/-- The result of `rand.Intn(10)`, which never panics. -/
theorem Intn_ten (u : Nat) : ∃ k, Intn 10 u = some k ∧ 0 ≤ k ∧ k < 10 := by
  refine ⟨(u : Int) % 10, by simp [Intn], ?_, ?_⟩ <;> omega

/-- C28, counterexample: in an open failure window with `nfail = 99`, `updateStatus` sets
`nfail` to `(99 + 1) % 100 = 0` and panics in `rand.Intn(0)`. -/
theorem updateStatus_panics_at_99 :
    ¬ ((100 : Int) < 10) ∧ Int.tmod (99 + 1) 100 = 0 ∧
    updateStatus { store := model.NewAnalyticsStore, nfail := 99, restore := 100 }
      10 10 10 0 0 0 = none := by
  refine ⟨by decide, by decide, by decide⟩

/-- C28, amended: while the failure window is open (the clock is not after `restore`) and
`nfail` is between 0 and 98, each call of `updateStatus` returns an error, increases `nfail`
by exactly 1 and moves `restore` strictly later, for every random draw and every clock,
without panicking. -/
theorem updateStatus_in_window (a : Archive) (now₁ now₂ now₃ : Int) (u₁ u₂ u₃ : Nat)
    (hw : now₁ ≤ a.restore) (h0 : 0 ≤ a.nfail) (h98 : a.nfail ≤ 98) :
    ∃ r, updateStatus a now₁ now₂ now₃ u₁ u₂ u₃ = some r ∧ r.failed = true ∧
      r.archive.nfail = a.nfail + 1 ∧ a.restore < r.archive.restore ∧
      r.archive.store = a.store := by
  obtain ⟨k, hk, hk0, _⟩ := Intn_ten u₁
  have hmod : Int.tmod (a.nfail + 1) 100 = a.nfail + 1 := by
    rw [Int.tmod_eq_emod (by omega) (by decide)]
    omega
  have hpos : ¬ (a.nfail + 1 ≤ 0) := by omega
  have hr : a.restore < a.restore + (a.nfail + 1 + 1 + k) * retry.Millisecond := by
    have : 0 < (a.nfail + 1 + 1 + k) * retry.Millisecond :=
      Int.mul_pos (by omega) (by decide)
    omega
  unfold updateStatus
  rw [if_neg (by omega)]
  simp only [hmod, hk]
  simp only [Intn, if_neg hpos]
  by_cases h90 : 90 ≤ (u₂ : Int) % (a.nfail + 1)
  · simp only [h90, if_true]
    exact ⟨_, rfl, rfl, rfl, hr, rfl⟩
  · simp only [h90, if_false]
    exact ⟨_, rfl, rfl, rfl, hr, rfl⟩

/-- Witness of C28 (amended): the second failure of a window. -/
theorem updateStatus_in_window_witness :
    ∃ r, updateStatus { store := model.NewAnalyticsStore, nfail := 1, restore := 100 }
        10 10 10 3 4 5 = some r ∧ r.failed = true ∧
      r.archive.nfail = 1 + 1 ∧ (100 : Int) < r.archive.restore ∧
      r.archive.store = model.NewAnalyticsStore :=
  updateStatus_in_window { store := model.NewAnalyticsStore, nfail := 1, restore := 100 }
    10 10 10 3 4 5 (by decide) (by decide) (by decide)

end archive

namespace model

theorem sameKey_self (s : Score) : sameKey s s = true := by
  simp [sameKey]

/-- Without a record of the key of `s`, the loop of `AddScore` ends without returning. -/
theorem scan_of_lookup_none (s : Score) :
    ∀ l : List Score, l.find? (sameKey s) = none →
      AddScore.scan s l = none ∧ l.filter (sameKey s) = [] := by
  intro l
  induction l with
  | nil => intro _; exact ⟨rfl, rfl⟩
  | cons score rest ih =>
    intro h
    by_cases hk : sameKey s score = true
    · simp [List.find?, hk] at h
    · have hk2 : sameKey s score = false := by simpa using hk
      simp only [List.find?, hk2] at h
      obtain ⟨h1, h2⟩ := ih h
      simp [AddScore.scan, hk2, h1, h2]

/-- With a first record `old` of the key of `s`, the loop of `AddScore` puts `s` in its place
when the votes of `s` are greater, and changes nothing otherwise. -/
theorem scan_of_lookup_some (s : Score) :
    ∀ (l : List Score) (old : Score), l.find? (sameKey s) = some old →
      ∃ l₁, AddScore.scan s l = some l₁ ∧
        l₁.find? (sameKey s) = some (if old.Votes < s.Votes then s else old) ∧
        l₁.filter (fun r => !sameKey s r) = l.filter (fun r => !sameKey s r) ∧
        (l₁.filter (sameKey s)).length = (l.filter (sameKey s)).length ∧
        1 ≤ (l.filter (sameKey s)).length ∧
        (s.Votes ≤ old.Votes → l₁ = l) := by
  intro l
  induction l with
  | nil => intro old h; simp at h
  | cons score rest ih =>
    intro old h
    by_cases hk : sameKey s score = true
    · have hold : score = old := by simpa [List.find?, hk] using h
      subst hold
      by_cases hv : score.Votes < s.Votes
      · refine ⟨s :: rest, by simp [AddScore.scan, hk, hv], ?_, ?_, ?_, ?_, ?_⟩
        · simp [List.find?, sameKey_self, hv]
        · simp [List.filter, sameKey_self, hk]
        · simp [List.filter, sameKey_self, hk]
        · simp [List.filter, hk]
        · intro hle; omega
      · refine ⟨score :: rest, by simp [AddScore.scan, hk, hv], ?_, rfl, rfl, ?_, ?_⟩
        · simp [List.find?, hk, hv]
        · simp [List.filter, hk]
        · intro _; rfl
    · have hk2 : sameKey s score = false := by simpa using hk
      simp only [List.find?, hk2] at h
      obtain ⟨l₁, h1, h2, h3, h4, h5, h6⟩ := ih old h
      refine ⟨score :: l₁, by simp [AddScore.scan, hk2, h1], ?_, ?_, ?_, ?_, ?_⟩
      · simp [List.find?, hk2, h2]
      · simp [List.filter, hk2, h3]
      · simp [List.filter, hk2, h4]
      · simpa [List.filter, hk2] using h5
      · intro hle; rw [h6 hle]

/-- C27: for every store and every score `s`: (1) when the store held at most one record of
the key of `s`, it holds exactly one after `AddScore`; (2) when it held none, that record is
`s`; (3) when it held a record, the record found after `AddScore` has for `Votes` the maximum
of `s.Votes` and the stored `Votes`, and the store is unchanged when the stored `Votes` is
greater or equal; (4) the records of every other key are unchanged. -/
theorem AddScore_keeps_highest (a : Analytics) (s : Score) :
    (a.count s ≤ 1 → (a.AddScore s).count s = 1) ∧
    (a.lookup s = none → (a.AddScore s).lookup s = some s) ∧
    (∀ old, a.lookup s = some old →
      ∃ r, (a.AddScore s).lookup s = some r ∧ sameKey s r = true ∧
        r.Votes = max s.Votes old.Votes ∧
        (s.Votes ≤ old.Votes → a.AddScore s = a)) ∧
    (a.AddScore s).others s = a.others s := by
  cases hl : a.stats.find? (sameKey s) with
  | none =>
    obtain ⟨h1, h2⟩ := scan_of_lookup_none s a.stats hl
    have hadd : a.AddScore s = { stats := a.stats ++ [s] } := by
      simp [Analytics.AddScore, h1]
    refine ⟨?_, ?_, ?_, ?_⟩
    · intro _
      simp [hadd, Analytics.count, List.filter_append, h2, List.filter, sameKey_self]
    · intro _
      simp [hadd, Analytics.lookup, List.find?_append, hl, List.find?, sameKey_self]
    · intro old ho
      simp [Analytics.lookup, hl] at ho
    · simp [hadd, Analytics.others, List.filter_append, List.filter, sameKey_self]
  | some old =>
    obtain ⟨l₁, h1, h2, h3, h4, h5, h6⟩ := scan_of_lookup_some s a.stats old hl
    have hadd : a.AddScore s = { stats := l₁ } := by
      simp [Analytics.AddScore, h1]
    have hkey : sameKey s old = true := by
      have := List.find?_some hl
      simpa using this
    refine ⟨?_, ?_, ?_, ?_⟩
    · intro hc
      simp only [Analytics.count] at hc
      simp only [hadd, Analytics.count, h4]
      omega
    · intro hn
      simp [Analytics.lookup, hl] at hn
    · intro old₁ ho
      have heq : old₁ = old := by
        simp only [Analytics.lookup, hl] at ho
        exact (Option.some.inj ho).symm
      subst heq
      refine ⟨if old₁.Votes < s.Votes then s else old₁, by simp [hadd, Analytics.lookup, h2],
        ?_, ?_, ?_⟩
      · by_cases hv : old₁.Votes < s.Votes <;> simp [hv, sameKey_self, hkey]
      · by_cases hv : old₁.Votes < s.Votes
        · simp [hv]; omega
        · simp [hv]; omega
      · intro hle
        rw [hadd, h6 hle]
    · simp [hadd, Analytics.others, h3]

end model

namespace hedged

open sg

/-! ## The hedged client -/

theorem inv_init (c : Client) : Inv c State.init := by
  simp [Inv, State.init]

theorem launch_n (c : Client) (s : State) (h : s.n ≤ c.concurrency) :
    (launch c s).n = min (s.n + 1) c.concurrency := by
  unfold launch
  split
  · simp only []; omega
  · omega

theorem inv_launch (c : Client) (s : State) (h : Inv c s) : Inv c (launch c s) := by
  obtain ⟨h1, h2, h3, h4⟩ := h
  unfold launch
  split
  · refine ⟨?_, ?_, h3, ?_⟩ <;> simp only [] <;> omega
  · exact ⟨h1, h2, h3, h4⟩

theorem complete_idle (c : Client) (s : State) (a : Attempt) (hr : s.running = 0) :
    complete c s a = s := by
  simp [complete, hr]

theorem complete_ok (c : Client) (s : State) (res : circuit2.Response) (hr : s.running ≠ 0)
    (hcap : s.data.length < c.concurrency) :
    complete c s (.ok res) =
      { s with running := s.running - 1, data := s.data ++ [res], sends := s.sends + 1 } := by
  simp [complete, hr, canSend, hcap]

theorem complete_error (c : Client) (s : State) (err : AttemptError) (hr : s.running ≠ 0)
    (hcn : err.isCanceled = false) (hcap : s.errs.length < c.concurrency) :
    complete c s (.fail err) =
      { s with running := s.running - 1, errs := s.errs ++ [err], sends := s.sends + 1 } := by
  simp [complete, hr, canSend, hcap, hcn]

/-- An attempt whose error matches `context.Canceled` sends nothing. -/
theorem complete_cancelled (c : Client) (s : State) (err : AttemptError) (hr : s.running ≠ 0)
    (hcn : err.isCanceled = true) :
    complete c s (.fail err) = { s with running := s.running - 1 } := by
  simp [complete, hr, hcn]

/-- An attempt that completes sends at most one value, never waits, and keeps `n`. -/
theorem inv_complete (c : Client) (s : State) (a : Attempt) (h : Inv c s) :
    Inv c (complete c s a) ∧ (complete c s a).n = s.n ∧
      (complete c s a).sends ≤ s.sends + 1 := by
  obtain ⟨h1, h2, h3, h4⟩ := h
  by_cases hr : s.running = 0
  · rw [complete_idle c s a hr]
    exact ⟨⟨h1, h2, h3, h4⟩, rfl, Nat.le_succ _⟩
  · cases a with
    | ok res =>
      rw [complete_ok c s res hr (by omega)]
      refine ⟨⟨h1, ?_, h3, ?_⟩, rfl, le_refl _⟩
      · show (s.data ++ [res]).length + s.errs.length + (s.running - 1) ≤ s.n
        rw [List.length_append, List.length_singleton]; omega
      · show s.sends + 1 + (s.running - 1) ≤ s.n
        omega
    | fail err =>
      cases hcn : err.isCanceled with
      | true =>
        rw [complete_cancelled c s err hr hcn]
        refine ⟨⟨h1, ?_, h3, ?_⟩, rfl, Nat.le_succ _⟩
        · show s.data.length + s.errs.length + (s.running - 1) ≤ s.n
          omega
        · show s.sends + (s.running - 1) ≤ s.n
          omega
      | false =>
        rw [complete_error c s err hr hcn (by omega)]
        refine ⟨⟨h1, ?_, h3, ?_⟩, rfl, le_refl _⟩
        · show s.data.length + (s.errs ++ [err]).length + (s.running - 1) ≤ s.n
          rw [List.length_append, List.length_singleton]; omega
        · show s.sends + 1 + (s.running - 1) ≤ s.n
          omega

theorem complete_n (c : Client) (s : State) (a : Attempt) : (complete c s a).n = s.n := by
  unfold complete
  split
  · rfl
  · cases a with
    | ok res => simp only []; split <;> rfl
    | fail err => simp only []; split <;> [split <;> rfl; rfl]

theorem complete_sends (c : Client) (s : State) (a : Attempt) :
    (complete c s a).sends ≤ s.sends + 1 := by
  unfold complete
  split
  · exact Nat.le_succ _
  · cases a with
    | ok res => simp only []; split <;> simp
    | fail err => simp only []; split <;> [split <;> simp; simp]

theorem inv_drain (c : Client) (es : List Event) :
    ∀ s : State, Inv c s → Inv c (drain c s es) := by
  induction es with
  | nil => intro s h; exact h
  | cons e es ih =>
    intro s h
    cases e with
    | timer => exact ih s h
    | complete a => exact ih _ (inv_complete c s a h).1
    | recvData => exact ih s h
    | recvErrs => exact ih s h

theorem inv_loop (c : Client) (es : List Event) :
    ∀ s : State, Inv c s → Inv c (loop c s es).2 := by
  induction es with
  | nil => intro s h; exact h
  | cons e es ih =>
    intro s h
    cases e with
    | timer => exact ih _ (inv_launch c s h)
    | complete a => exact ih _ (inv_complete c s a h).1
    | recvData =>
      cases hd : s.data with
      | nil => simp only [loop, hd]; exact ih s h
      | cons resp rest =>
        simp only [loop, hd]
        apply inv_drain
        obtain ⟨h1, h2, h3, h4⟩ := h
        rw [hd] at h2
        simp only [List.length_cons] at h2
        exact ⟨h1, by simp only []; omega, h3, h4⟩
    | recvErrs =>
      cases hd : s.errs with
      | nil => simp only [loop, hd]; exact ih s h
      | cons err rest =>
        simp only [loop, hd]
        apply inv_drain
        obtain ⟨h1, h2, h3, h4⟩ := h
        rw [hd] at h2
        simp only [List.length_cons] at h2
        exact ⟨h1, by simp only []; omega, h3, h4⟩

/-- As long as `Do` has not returned, the attempts launched are one per timer taken, up to
`c.concurrency`. -/
theorem loop_n (c : Client) (es : List Event) :
    ∀ s : State, s.n ≤ c.concurrency → (loop c s es).1 = none →
      (loop c s es).2.n = min (s.n + timers es) c.concurrency := by
  induction es with
  | nil => intro s h _; simp [loop, timers]; omega
  | cons e es ih =>
    intro s h hnone
    cases e with
    | timer =>
      simp only [loop] at hnone ⊢
      have hl := launch_n c s h
      rw [ih (launch c s) (by rw [hl]; omega) hnone, hl]
      simp only [timers, List.count_cons_self]
      omega
    | complete a =>
      simp only [loop] at hnone ⊢
      have hn : (complete c s a).n = s.n := complete_n c s a
      rw [ih (complete c s a) (by rw [hn]; exact h) hnone, hn]
      simp [timers]
    | recvData =>
      cases hd : s.data with
      | nil =>
        simp only [loop, hd] at hnone ⊢
        rw [ih s h hnone]
        simp [timers]
      | cons resp rest => simp [loop, hd] at hnone
    | recvErrs =>
      cases hd : s.errs with
      | nil =>
        simp only [loop, hd] at hnone ⊢
        rw [ih s h hnone]
        simp [timers]
      | cons err rest => simp [loop, hd] at hnone

/-- C21: with `concurrency ≥ 1`, for every execution of `hedged.Client.Do`: attempt 0 is
launched before the first `select`; as long as `Do` has not received a result, one further
attempt is launched per timer taken, up to `concurrency`; never more than `concurrency`
attempts are launched; a completing attempt sends at most one value, so the values sent are
at most the attempts completed; the channels never hold more than their capacity
`concurrency`; and no attempt ever waits on its send, before or after `Do` has returned. -/
theorem hedged_attempts_bounded (c : Client) (es : List Event) (hc : 1 ≤ c.concurrency) :
    (launch c State.init).n = 1 ∧
    ((Do c es).1 = none → (Do c es).2.n = min (1 + timers es) c.concurrency) ∧
    (Do c es).2.n ≤ c.concurrency ∧
    (∀ (s : State) (a : Attempt), (complete c s a).sends ≤ s.sends + 1) ∧
    (Do c es).2.sends + (Do c es).2.running ≤ (Do c es).2.n ∧
    (Do c es).2.data.length ≤ c.concurrency ∧
    (Do c es).2.errs.length ≤ c.concurrency ∧
    (Do c es).2.waiting = 0 := by
  have hl : (launch c State.init).n = 1 := by
    rw [launch_n c State.init (by simp [State.init])]
    simp [State.init]
    omega
  obtain ⟨h1, h2, h3, h4⟩ := inv_loop c es _ (inv_launch c _ (inv_init c))
  refine ⟨hl, ?_, h1, ?_, h4, ?_, ?_, h3⟩
  · intro hnone
    have := loop_n c es (launch c State.init) (by rw [hl]; exact hc) hnone
    rw [hl] at this
    exact this
  · intro s a
    exact complete_sends c s a
  · unfold Do; omega
  · unfold Do; omega

/-- Witness of C21: two attempts allowed, a timer, a cancelled attempt, a response, the
receive of it, and the completion of nothing more. -/
theorem hedged_attempts_bounded_witness :
    (Do { concurrency := 2 }
      [.timer, .complete (.ok { StatusCode := 200 }), .recvData,
       .complete (.fail { asURLError := true, isCanceled := true, tag := 0 })]).2.waiting = 0 :=
  (hedged_attempts_bounded { concurrency := 2 }
    [.timer, .complete (.ok { StatusCode := 200 }), .recvData,
     .complete (.fail { asURLError := true, isCanceled := true, tag := 0 })]
    (by decide)).2.2.2.2.2.2.2

end hedged

namespace hedged

open sg

theorem sourced_launch (c : Client) (all : List Event) (s : State) (h : Sourced all s) :
    Sourced all (launch c s) := by
  unfold launch
  split
  · exact h
  · exact h

theorem sourced_complete (c : Client) (all : List Event) (s : State) (a : Attempt)
    (h : Sourced all s) (ha : Event.complete a ∈ all) : Sourced all (complete c s a) := by
  obtain ⟨h1, h2⟩ := h
  unfold complete
  split
  · exact ⟨h1, h2⟩
  · cases a with
    | ok res =>
      simp only []
      split
      · refine ⟨?_, h2⟩
        intro r hr
        rcases List.mem_append.mp hr with hr | hr
        · exact h1 r hr
        · rw [List.mem_singleton.mp hr]; exact ha
      · exact ⟨h1, h2⟩
    | fail err =>
      simp only []
      split
      · rename_i hcn
        split
        · refine ⟨h1, ?_⟩
          intro e he
          rcases List.mem_append.mp he with he | he
          · exact h2 e he
          · rw [List.mem_singleton.mp he]
            exact ⟨by simpa using hcn, ha⟩
        · exact ⟨h1, h2⟩
      · exact ⟨h1, h2⟩

theorem loop_result (c : Client) (all : List Event) (es : List Event) :
    ∀ s : State, (∀ ev ∈ es, ev ∈ all) → Sourced all s →
      ∀ resp err, (loop c s es).1 = some (resp, err) →
        (∃ r, resp = some r ∧ err = none ∧ Event.complete (.ok r) ∈ all) ∨
        (∃ e, resp = none ∧ err = some e ∧ e.isCanceled = false ∧
          Event.complete (.fail e) ∈ all) := by
  induction es with
  | nil => intro s _ _ resp err h; simp [loop] at h
  | cons ev es ih =>
    intro s hsub hsrc resp err h
    have hsub2 : ∀ x ∈ es, x ∈ all := fun x hx => hsub x (List.mem_cons_of_mem _ hx)
    cases ev with
    | timer => exact ih _ hsub2 (sourced_launch c all s hsrc) resp err h
    | complete a =>
      exact ih _ hsub2
        (sourced_complete c all s a hsrc (hsub _ (List.mem_cons_self _ _))) resp err h
    | recvData =>
      cases hd : s.data with
      | nil =>
        simp only [loop, hd] at h
        exact ih s hsub2 hsrc resp err h
      | cons r rest =>
        simp only [loop, hd, Option.some.injEq, Prod.mk.injEq] at h
        obtain ⟨hr, he⟩ := h
        exact Or.inl ⟨r, hr.symm, he.symm, hsrc.1 r (by rw [hd]; exact List.mem_cons_self _ _)⟩
    | recvErrs =>
      cases hd : s.errs with
      | nil =>
        simp only [loop, hd] at h
        exact ih s hsub2 hsrc resp err h
      | cons e rest =>
        simp only [loop, hd, Option.some.injEq, Prod.mk.injEq] at h
        obtain ⟨hr, he⟩ := h
        have := hsrc.2 e (by rw [hd]; exact List.mem_cons_self _ _)
        exact Or.inr ⟨e, hr.symm, he.symm, this.1, this.2⟩

/-- C22: when `hedged.Client.Do` returns `(resp, err)`, either `resp` is the response some
attempt of the execution obtained with a nil error and `err` is nil, or `resp` is nil and
`err` is the error of some attempt, an error that does not match `context.Canceled`: the
result is never a cancellation. An attempt whose error matches `context.Canceled` sends
nothing: it leaves both channels as they are. -/
theorem hedged_result_from_attempt (c : Client) (es : List Event)
    (resp : Option circuit2.Response) (err : Option AttemptError)
    (h : (Do c es).1 = some (resp, err)) :
    ((∃ r, resp = some r ∧ err = none ∧ Event.complete (.ok r) ∈ es) ∨
      (∃ e, resp = none ∧ err = some e ∧ e.isCanceled = false ∧
        Event.complete (.fail e) ∈ es)) ∧
    (∀ (s : State) (e : AttemptError), e.isCanceled = true →
      (complete c s (.fail e)).data = s.data ∧ (complete c s (.fail e)).errs = s.errs ∧
      (complete c s (.fail e)).sends = s.sends) := by
  refine ⟨?_, ?_⟩
  · refine loop_result c es es _ (fun ev hev => hev) ?_ resp err h
    exact sourced_launch c es _ ⟨by simp [State.init], by simp [State.init]⟩
  · intro s e he
    by_cases hr : s.running = 0
    · rw [complete_idle c s _ hr]
      exact ⟨rfl, rfl, rfl⟩
    · rw [complete_cancelled c s e hr he]
      exact ⟨rfl, rfl, rfl⟩

/-- Witness of C22: two attempts; the first one fails with a transport error, which `Do`
returns. -/
theorem hedged_result_from_attempt_witness :
    (∃ r, (none : Option circuit2.Response) = some r ∧
        (some { asURLError := true, isCanceled := false, tag := 7 } : Option AttemptError) =
          none ∧
        Event.complete (.ok r) ∈
          [Event.timer,
           .complete (.fail { asURLError := true, isCanceled := false, tag := 7 }),
           .recvErrs]) ∨
      (∃ e, (none : Option circuit2.Response) = none ∧
        (some { asURLError := true, isCanceled := false, tag := 7 } : Option AttemptError) =
          some e ∧ e.isCanceled = false ∧
        Event.complete (.fail e) ∈
          [Event.timer,
           .complete (.fail { asURLError := true, isCanceled := false, tag := 7 }),
           .recvErrs]) :=
  (hedged_result_from_attempt { concurrency := 2 }
    [.timer, .complete (.fail { asURLError := true, isCanceled := false, tag := 7 }),
     .recvErrs] none (some { asURLError := true, isCanceled := false, tag := 7 })
    (by decide)).1

end hedged
